import Mathlib

/-!
Verification of the pg_shared_plans plan-cache engine.

This file gives a shallow embedding, in Lean 4, of the cache engine
implemented in `src/pg_shared_plans.c` and `src/pgsp_utility.c`:

* the data model (`pgspHashKey`, `pgspEntry`, the shared state and the
  reverse-dependency index);
* the operations the specification talks about
  (`pgsp_choose_cache_plan`, `pgsp_entry_dealloc`, `pgsp_entry_alloc`,
  `pgsp_entry_remove`, `pgsp_allocate_plan`, `pgsp_cache_plan`,
  `pg_shared_plans_reset_internal`, the planner hook and the
  LOCK-class utility path);
* theorems settling each claim about those operations.

Machine doubles (`Cost`, `usage`, planning times) are modelled as `ℚ`;
machine integers as `Nat`; DSA pointers as `Option` values where `none`
stands for `InvalidDsaPointer`; fallible allocation is modelled by an
explicit oracle saying which `dsa_allocate_extended` calls succeed.
The reverse-dependency operations live in `pgsp_rdepend.c`, which is not
part of the sources at hand; they are modelled from the specification
(section 4.C) and clearly marked as such.
-/

/-- PLANCACHE_THRESHOLD from pg_shared_plans.c. -/
def PLANCACHE_THRESHOLD : Nat := 5

/-- PGSP_USAGE_INIT from pg_shared_plans.c: initial usage of a new entry. -/
def PGSP_USAGE_INIT : ℚ := 1

/-- ASSUMED_MEDIAN_INIT from pg_shared_plans.c. -/
def ASSUMED_MEDIAN_INIT : ℚ := 10

/-- USAGE_DECREASE_FACTOR from pg_shared_plans.c: decay applied on each
entry_dealloc pass. -/
def USAGE_DECREASE_FACTOR : ℚ := 99 / 100

/-- USAGE_DEALLOC_PERCENT from pg_shared_plans.c. -/
def USAGE_DEALLOC_PERCENT : Nat := 5

/-- Byte size of an Oid, as used by the arena accounting of the rels array. -/
def SIZEOF_OID : Nat := 4

/-- Byte size of a pgspRdependKey, as used by the arena accounting of the
rdeps array. -/
def SIZEOF_RDEPEND_KEY : Nat := 12

/-- pgspHashKey: the 4-component fingerprint identifying a cache slot.
InvalidOid (the "any user" sentinel) is modelled as 0. -/
structure pgspHashKey where
  userid : Nat
  dbid : Nat
  queryid : Nat
  constid : Nat
deriving DecidableEq, Repr

/-- pgspRdependKey: key of the reverse-dependency index
(database, catalog class, object id or catalog-cache hash). -/
structure pgspRdependKey where
  dbid : Nat
  classid : Nat
  oid : Nat
deriving DecidableEq, Repr

/-- pgspEntry: one cached query.  DSA pointers are `Option` values
(`none` = InvalidDsaPointer); the serialized plan and the two dependency
arrays carry their contents directly. -/
structure pgspEntry where
  key : pgspHashKey
  len : Nat
  plan : Option Nat
  num_rels : Nat
  rels : Option (List Nat)
  num_rdeps : Nat
  rdeps : Option (List pgspRdependKey)
  num_const : Nat
  plantime : ℚ
  generic_cost : ℚ
  discard : Nat
  lockers : Nat
  bypass : Nat
  usage : ℚ
  total_custom_cost : ℚ
  num_custom_plans : Nat
deriving DecidableEq, Repr

/-- pgspSharedState: the global spin-locked counters. -/
structure pgspSharedState where
  cur_median_usage : ℚ
  rdepend_num : Nat
  alloced_size : Nat
  dealloc : Nat
  stats_reset : Nat
deriving DecidableEq, Repr

/-- The whole shared memory state: global counters, the entry store
(`pgsp_hash`, a hash map modelled as a list of entries with pairwise
distinct keys), and the reverse-dependency index (`pgsp_rdepend`,
an association list from rdepend key to the fingerprints depending
on it). -/
structure pgspState where
  shared : pgspSharedState
  store : List pgspEntry
  rdepend : List (pgspRdependKey × List pgspHashKey)
deriving DecidableEq, Repr

/-- Syscache identifier RELOID, used as the classid of relation reverse
dependencies.  The concrete value is irrelevant; only distinctness from
TYPEOID and PROCOID matters. -/
def RELOID : Nat := 35

/-- Syscache identifier TYPEOID. -/
def TYPEOID : Nat := 75

/-- Syscache identifier PROCOID. -/
def PROCOID : Nat := 44

/-- A default entry, used only as the `List.getD` fallback when indexing
into lists that are provably non-empty at the call sites. -/
def defaultEntry : pgspEntry :=
  { key := { userid := 0, dbid := 0, queryid := 0, constid := 0 }
    len := 0, plan := none, num_rels := 0, rels := none, num_rdeps := 0
    rdeps := none, num_const := 0, plantime := 0, generic_cost := 0
    discard := 0, lockers := 0, bypass := 0, usage := 0
    total_custom_cost := 0, num_custom_plans := 0 }

/-- Look up a key of the reverse-dependency index. -/
def rdepend_find (rd : List (pgspRdependKey × List pgspHashKey))
    (rk : pgspRdependKey) : Option (List pgspHashKey) :=
  match rd with
  | [] => none
  | (k, v) :: rest => if k = rk then some v else rdepend_find rest rk

/-- Replace the value stored under a key of the reverse-dependency index
(no change if the key is absent). -/
def rdepend_set (rd : List (pgspRdependKey × List pgspHashKey))
    (rk : pgspRdependKey) (v : List pgspHashKey) :
    List (pgspRdependKey × List pgspHashKey) :=
  match rd with
  | [] => []
  | (k, w) :: rest =>
      if k = rk then (k, v) :: rest else (k, w) :: rdepend_set rest rk v

/-- Drop a key of the reverse-dependency index. -/
def rdepend_remove (rd : List (pgspRdependKey × List pgspHashKey))
    (rk : pgspRdependKey) : List (pgspRdependKey × List pgspHashKey) :=
  match rd with
  | [] => []
  | (k, w) :: rest =>
      if k = rk then rest else (k, w) :: rdepend_remove rest rk

/-- Modelled from the spec: `pgsp_entry_register_rdepend` is implemented in
`pgsp_rdepend.c`, which is not among the sources at hand.  Spec section 4.C:
each reverse-dependency value is an array of fingerprints capped at
`rdepend_max`; `register` fails when it would exceed that cap, and the
global `rdepend_num` counter tracks the number of reverse-dependency
entries.  Registering a fingerprint already present is a successful no-op
(registration must be idempotent, since an existing discarded entry
re-registers the same dependencies when it is re-populated). -/
def pgsp_entry_register_rdepend (rdepend_max : Nat) (dbid classid oid : Nat)
    (key : pgspHashKey) (st : pgspState) : Bool × pgspState :=
  let rk : pgspRdependKey := { dbid := dbid, classid := classid, oid := oid }
  match rdepend_find st.rdepend rk with
  | none =>
      (true, { st with
                rdepend := (rk, [key]) :: st.rdepend,
                shared := { st.shared with
                             rdepend_num := st.shared.rdepend_num + 1 } })
  | some keys =>
      if key ∈ keys then (true, st)
      else if keys.length ≥ rdepend_max then (false, st)
      else (true, { st with rdepend := rdepend_set st.rdepend rk (keys ++ [key]) })

/-- Modelled from the spec: `pgsp_entry_unregister_rdepend` is implemented
in `pgsp_rdepend.c`, which is not among the sources at hand.  Spec section
4.C: remove the fingerprint from the array stored under the key; a
fingerprint that is not registered is a no-op; an entry whose array
becomes empty is dropped (and `rdepend_num` decremented). -/
def pgsp_entry_unregister_rdepend (dbid classid oid : Nat)
    (key : pgspHashKey) (st : pgspState) : pgspState :=
  let rk : pgspRdependKey := { dbid := dbid, classid := classid, oid := oid }
  match rdepend_find st.rdepend rk with
  | none => st
  | some keys =>
      let keys2 := keys.erase key
      if keys2 = [] then
        { st with
           rdepend := rdepend_remove st.rdepend rk,
           shared := { st.shared with
                        rdepend_num := st.shared.rdepend_num - 1 } }
      else { st with rdepend := rdepend_set st.rdepend rk keys2 }

/-- Subtract freed bytes from the global accounting
(PGSP_FREEDSMEM in pg_shared_plans.c). -/
def freeDsmem (size : Nat) (st : pgspState) : pgspState :=
  { st with shared := { st.shared with
                         alloced_size := st.shared.alloced_size - size } }

/-- Add allocated bytes to the global accounting
(PGSP_USEDSMEM in pg_shared_plans.c). -/
def useDsmem (size : Nat) (st : pgspState) : pgspState :=
  { st with shared := { st.shared with
                         alloced_size := st.shared.alloced_size + size } }

/-- pgsp_entry_remove (pg_shared_plans.c): free the dsa memory attributed
to the entry, unregister all its reverse dependencies, and remove the
entry from the store. -/
def pgsp_entry_remove (st : pgspState) (e : pgspEntry) : pgspState :=
  let st1 := match e.plan with
    | some _ => freeDsmem e.len st
    | none => st
  let st2 :=
    if 0 < e.num_rels then
      let stx := (e.rels.getD []).foldl
        (fun acc oid =>
          pgsp_entry_unregister_rdepend e.key.dbid RELOID oid e.key acc) st1
      freeDsmem (e.num_rels * SIZEOF_OID) stx
    else st1
  let st3 :=
    if 0 < e.num_rdeps then
      let stx := (e.rdeps.getD []).foldl
        (fun acc rk =>
          pgsp_entry_unregister_rdepend rk.dbid rk.classid rk.oid e.key acc) st2
      freeDsmem (e.num_rdeps * SIZEOF_RDEPEND_KEY) stx
    else st2
  { st3 with store := st3.store.filter (fun x => decide (x.key ≠ e.key)) }

/-- Usage decay applied to every entry during the sequential scan of
pgsp_entry_dealloc. -/
def decayEntry (e : pgspEntry) : pgspEntry :=
  { e with usage := e.usage * USAGE_DECREASE_FACTOR }

/-- entry_cmp (pg_shared_plans.c): qsort comparator ordering entries by
increasing usage. -/
def usageLe (a b : pgspEntry) : Bool := decide (a.usage ≤ b.usage)

/-- pgsp_entry_dealloc (pg_shared_plans.c): decay every usage, sort the
entries by usage, record the (approximate) median usage, remove the
`min(N, max(10, N*5/100))` least-used entries through the full remove
path, and bump the global dealloc counter. -/
def pgsp_entry_dealloc (st : pgspState) : pgspState :=
  let decayed := st.store.map decayEntry
  let entries := decayed.mergeSort usageLe
  let st1 : pgspState := { st with store := decayed }
  let st2 :=
    if 0 < entries.length then
      { st1 with shared := { st1.shared with
          cur_median_usage := (entries.getD (entries.length / 2) defaultEntry).usage } }
    else st1
  let nvictims := min (max 10 (entries.length * USAGE_DEALLOC_PERCENT / 100))
                      entries.length
  let victims := entries.take nvictims
  let st3 := victims.foldl pgsp_entry_remove st2
  { st3 with shared := { st3.shared with dealloc := st3.shared.dealloc + 1 } }

/-- Result of pgsp_choose_cache_plan: the returned boolean, the
accum_custom_stats out-parameter, and the updated entry counters. -/
structure pgspChooseResult where
  use_cached : Bool
  accum_custom_stats : Bool
  entry : pgspEntry
deriving DecidableEq, Repr

/-- pgsp_choose_cache_plan (pg_shared_plans.c): decide whether to use the
cached plan, maintaining the bypass and usage counters of the entry. -/
def pgsp_choose_cache_plan (pgsp_threshold : Nat) (e : pgspEntry) :
    pgspChooseResult :=
  if e.num_custom_plans ≥ pgsp_threshold then
    let avg : ℚ := e.total_custom_cost / (e.num_custom_plans : ℚ)
    if e.generic_cost < avg then
      { use_cached := true, accum_custom_stats := false,
        entry := { e with bypass := e.bypass + 1,
                          usage := e.usage + e.plantime } }
    else
      { use_cached := false, accum_custom_stats := false, entry := e }
  else
    { use_cached := false, accum_custom_stats := true,
      entry := { e with usage := e.usage + e.plantime } }

/-- Iteration core of the make-space loop of pgsp_entry_alloc:
`while (hash_get_num_entries(pgsp_hash) >= pgsp_max) pgsp_entry_dealloc();`.
The first argument bounds the number of iterations; since
pgsp_entry_dealloc strictly shrinks a non-empty store (proved below), a
bound of one more than the store size is never exhausted, which makes
this function extensionally the while loop whenever `1 ≤ pgsp_max`. -/
def pgsp_make_space_go : Nat → Nat → pgspState → pgspState
  | 0, _, st => st
  | Nat.succ fuel, pgsp_max, st =>
      if pgsp_max ≤ st.store.length then
        pgsp_make_space_go fuel pgsp_max (pgsp_entry_dealloc st)
      else st

/-- The make-space loop of pgsp_entry_alloc. -/
def pgsp_make_space (pgsp_max : Nat) (st : pgspState) : pgspState :=
  pgsp_make_space_go (st.store.length + 1) pgsp_max st

/-- pgspDsaContext (pg_shared_plans.c): the staged dsa allocations handed
from pgsp_allocate_plan to pgsp_entry_alloc. -/
structure pgspDsaContext where
  plan : Option Nat
  len : Nat
  rels : Option (List Nat)
  num_rels : Nat
  rdeps : Option (List pgspRdependKey)
  num_rdeps : Nat
deriving DecidableEq, Repr

/-- Update the entry stored under a key of the store (the hash map keeps
at most one entry per key). -/
def store_update (store : List pgspEntry) (k : pgspHashKey)
    (f : pgspEntry → pgspEntry) : List pgspEntry :=
  store.map (fun e => if e.key = k then f e else e)

/-- The reconciliation block of pgsp_entry_alloc, run when the key was
found and the entry holds a valid plan: unregister the old relation and
invalitem reverse dependencies that are no longer referenced, free the
old arrays, and move the freshly allocated arrays into the entry. -/
def pgsp_entry_alloc_reconcile (key : pgspHashKey) (ctx : pgspDsaContext)
    (e0 : pgspEntry) (st : pgspState) : pgspState :=
  let st1 :=
    if e0.rels ≠ none then
      let old := e0.rels.getD []
      let nw := ctx.rels.getD []
      let stu := old.foldl
        (fun acc oid =>
          if oid ∈ nw then acc
          else pgsp_entry_unregister_rdepend key.dbid RELOID oid key acc) st
      freeDsmem (e0.num_rels * SIZEOF_OID) stu
    else st
  let st2 :=
    if e0.rdeps ≠ none then
      let old := e0.rdeps.getD []
      let nw := ctx.rdeps.getD []
      let stu := old.foldl
        (fun acc rk =>
          if rk ∈ nw then acc
          else pgsp_entry_unregister_rdepend rk.dbid rk.classid rk.oid key acc)
        st1
      freeDsmem (e0.num_rdeps * SIZEOF_RDEPEND_KEY) stu
    else st1
  let moveArrays : pgspEntry → pgspEntry := fun e =>
    { e with rels := ctx.rels, num_rels := ctx.num_rels,
             rdeps := ctx.rdeps, num_rdeps := ctx.num_rdeps }
  { st2 with store := store_update st2.store key moveArrays }

/-- pgsp_entry_alloc (pg_shared_plans.c): make space if needed, then find
or create the entry for the key and move the staged dsa allocations into
it.  The trailing context frees of the C function never fire because every
path either transfers or frees each context field, so they are not
modelled. -/
def pgsp_entry_alloc (pgsp_max : Nat) (key : pgspHashKey)
    (ctx : pgspDsaContext) (plantime : ℚ) (num_const : Nat)
    (custom_cost generic_cost : ℚ) (st0 : pgspState) : pgspState :=
  let st := pgsp_make_space pgsp_max st0
  match st.store.find? (fun e => decide (e.key = key)) with
  | none =>
      let e : pgspEntry :=
        { key := key, len := ctx.len, plan := ctx.plan,
          num_rels := ctx.num_rels, rels := ctx.rels,
          num_rdeps := ctx.num_rdeps, rdeps := ctx.rdeps,
          num_const := num_const, plantime := plantime,
          generic_cost := generic_cost, discard := 0, lockers := 0,
          bypass := 0, usage := PGSP_USAGE_INIT,
          total_custom_cost := custom_cost, num_custom_plans := 1 }
      { st with store := e :: st.store }
  | some e0 =>
      if e0.plan = none then
        if e0.lockers ≠ 0 then
          let st1 := freeDsmem ctx.len st
          let st2 :=
            if 0 < ctx.num_rels then
              (ctx.rels.getD []).foldl
                (fun acc oid =>
                  pgsp_entry_unregister_rdepend key.dbid RELOID oid key acc) st1
            else st1
          let st3 :=
            if 0 < ctx.num_rdeps then
              (ctx.rdeps.getD []).foldl
                (fun acc rk =>
                  pgsp_entry_unregister_rdepend rk.dbid rk.classid rk.oid key acc)
                st2
            else st2
          let st4 :=
            if 0 < ctx.num_rels then freeDsmem (ctx.num_rels * SIZEOF_OID) st3
            else st3
          if 0 < ctx.num_rdeps then
            freeDsmem (ctx.num_rdeps * SIZEOF_RDEPEND_KEY) st4
          else st4
        else
          let movePlan : pgspEntry → pgspEntry := fun e =>
            { e with plan := ctx.plan, len := ctx.len }
          let stA := { st with store := store_update st.store key movePlan }
          pgsp_entry_alloc_reconcile key ctx e0 stA
      else
        let stA := freeDsmem ctx.len st
        pgsp_entry_alloc_reconcile key ctx e0 stA

/-- list_append_unique_oid, as used on the rtable of the plan being
cached. -/
def list_append_unique_oid (l : List Nat) (o : Nat) : List Nat :=
  if o ∈ l then l else l ++ [o]

/-- Allocation oracle: which of the three dsa_allocate_extended calls of
pgsp_allocate_plan succeed (DSA_ALLOC_NO_OOM returns a sentinel on
failure instead of raising). -/
structure pgspAllocOracle where
  planOk : Bool
  relsOk : Bool
  rdepsOk : Bool
deriving DecidableEq, Repr

/-- PGSP_ITEM_NOT_HANDLED: only type and procedure invalidation items are
tracked. -/
def pgsp_item_handled (it : Nat × Nat) : Bool :=
  decide (it.1 = TYPEOID) || decide (it.1 = PROCOID)

/-- The relation-registration loop of pgsp_allocate_plan: register each
oid in turn; on failure report how many registrations completed. -/
def pgsp_register_rels (rdepend_max dbid : Nat) (key : pgspHashKey) :
    List Nat → pgspState → Bool × Nat × pgspState
  | [], st => (true, 0, st)
  | oid :: rest, st =>
      let r := pgsp_entry_register_rdepend rdepend_max dbid RELOID oid key st
      if r.1 then
        let r2 := pgsp_register_rels rdepend_max dbid key rest r.2
        (r2.1, r2.2.1 + 1, r2.2.2)
      else (false, 0, r.2)

/-- The invalidation-item registration loop of pgsp_allocate_plan:
register each handled item in turn, accumulating the rdepend keys of the
successfully registered items (rdeps_tmp); on failure the returned list
holds exactly the completed registrations. -/
def pgsp_register_invals (rdepend_max dbid : Nat) (key : pgspHashKey) :
    List (Nat × Nat) → pgspState → Bool × List pgspRdependKey × pgspState
  | [], st => (true, [], st)
  | it :: rest, st =>
      if pgsp_item_handled it then
        let r := pgsp_entry_register_rdepend rdepend_max dbid it.1 it.2 key st
        if r.1 then
          let r2 := pgsp_register_invals rdepend_max dbid key rest r.2
          (r2.1, { dbid := dbid, classid := it.1, oid := it.2 } :: r2.2.1, r2.2.2)
        else (false, [], r.2)
      else pgsp_register_invals rdepend_max dbid key rest st

/-- The free_invals unwind of pgsp_allocate_plan: walk the invalidation
items again, unregistering handled items until one more than the number
of completed registrations has been unregistered (the loop of the C code
unregisters the item whose registration failed as well, a harmless no-op
on the reverse index). -/
def pgsp_unwind_invals (dbid : Nat) (key : pgspHashKey)
    (invalItems : List (Nat × Nat)) (nb_alloced_inval : Nat)
    (st : pgspState) : pgspState :=
  ((invalItems.filter pgsp_item_handled).take (nb_alloced_inval + 1)).foldl
    (fun acc it => pgsp_entry_unregister_rdepend dbid it.1 it.2 key acc) st

/-- The free_rels unwind of pgsp_allocate_plan: unregister the
registered relations and free the oid array. -/
def pgsp_unwind_rels (dbid : Nat) (key : pgspHashKey) (oids : List Nat)
    (nb_alloced_rels : Nat) (st : pgspState) : pgspState :=
  if 0 < oids.length then
    freeDsmem (oids.length * SIZEOF_OID)
      ((oids.take nb_alloced_rels).foldl
        (fun acc oid =>
          pgsp_entry_unregister_rdepend dbid RELOID oid key acc) st)
  else st

/-- LWLockRelease (PostgreSQL, lwlock.c): releasing a lock the backend
does not hold raises `elog(ERROR, "lock ... is not held")`.  The
returned flag is whether the call raises. -/
def LWLockRelease_raises (held : Bool) : Bool := !held

/-- The outcome of pgsp_allocate_plan: the boolean the C function
returns, whether its epilogue's LWLockRelease raised an error instead of
returning, the staged dsa context and the resulting shared state. -/
structure pgspAllocResult where
  ok : Bool
  elog_error : Bool
  ctx : pgspDsaContext
  state : pgspState
deriving DecidableEq, Repr

/-- pgsp_allocate_plan (pg_shared_plans.c): serialize the plan into the
arena, build and register the relation and invalitem dependency arrays;
on failure unwind every completed registration and allocation.  The
store-lock protocol of the C function is modelled by `elog_error`: the
function asserts the lock is not held on entry; a failed plan
allocation returns false before any lock interaction; the failed
relation-array allocation does `goto free_plan`, jumping over the
LWLockAcquire, yet the common epilogue unconditionally executes
LWLockRelease, which then operates on an unheld lock and raises; every
later path runs after the acquire and releases normally.  `plan_len`
stands for `strlen(nodeToString(stmt)) + 1`; `rel_oids_raw` for the
relids of the RTE_RELATION rtable entries of the plan; `invalItems` for
the (cacheId, hashValue) pairs from extract_query_dependencies plus
stmt->invalItems. -/
def pgsp_allocate_plan (rdepend_max : Nat) (oracle : pgspAllocOracle)
    (dbid : Nat) (key : pgspHashKey) (plan_id plan_len : Nat)
    (rel_oids_raw : List Nat) (invalItems : List (Nat × Nat))
    (st : pgspState) : pgspAllocResult :=
  let ctx0 : pgspDsaContext :=
    { plan := none, len := plan_len, rels := none, num_rels := 0,
      rdeps := none, num_rdeps := 0 }
  if ¬ oracle.planOk then
    { ok := false, elog_error := false, ctx := ctx0, state := st }
  else
    let stP := useDsmem plan_len st
    let ctxP := { ctx0 with plan := some plan_id }
    let oids := rel_oids_raw.foldl list_append_unique_oid []
    let ctxR := { ctxP with num_rels := oids.length }
    if oids ≠ [] ∧ ¬ oracle.relsOk then
      { ok := false, elog_error := LWLockRelease_raises false, ctx := ctxR,
        state := freeDsmem plan_len stP }
    else
      let stR := if oids ≠ [] then useDsmem (oids.length * SIZEOF_OID) stP
                 else stP
      let ctxR := if oids ≠ [] then { ctxR with rels := some oids } else ctxR
      let lock_held := true
      let regR := pgsp_register_rels rdepend_max dbid key oids stR
      if ¬ regR.1 then
        { ok := false, elog_error := LWLockRelease_raises lock_held,
          ctx := ctxR,
          state := freeDsmem plan_len
            (pgsp_unwind_rels dbid key oids regR.2.1 regR.2.2) }
      else
        let stI0 := regR.2.2
        let regI := pgsp_register_invals rdepend_max dbid key invalItems stI0
        let rdeps_tmp := regI.2.1
        let nb := rdeps_tmp.length
        if ¬ regI.1 then
          { ok := false, elog_error := LWLockRelease_raises lock_held,
            ctx := ctxR,
            state := freeDsmem plan_len
              (pgsp_unwind_rels dbid key oids oids.length
                (pgsp_unwind_invals dbid key invalItems nb regI.2.2)) }
        else
          if 0 < nb ∧ ¬ oracle.rdepsOk then
            { ok := false, elog_error := LWLockRelease_raises lock_held,
              ctx := ctxR,
              state := freeDsmem plan_len
                (pgsp_unwind_rels dbid key oids oids.length
                  (pgsp_unwind_invals dbid key invalItems nb regI.2.2)) }
          else
            let stF := if 0 < nb then useDsmem (nb * SIZEOF_RDEPEND_KEY) regI.2.2
                       else regI.2.2
            let ctxF :=
              if 0 < nb then { ctxR with rdeps := some rdeps_tmp, num_rdeps := nb }
              else ctxR
            { ok := true, elog_error := LWLockRelease_raises lock_held,
              ctx := ctxF, state := stF }

/-- pgsp_cache_plan (pg_shared_plans.c): store the generic plan in shared
memory and allocate the entry for it; if the plan could not be stored, do
not try to allocate an entry (an error raised inside pgsp_allocate_plan
likewise aborts before any entry is allocated, leaving the state as
pgsp_allocate_plan left it). -/
def pgsp_cache_plan (pgsp_max rdepend_max : Nat) (oracle : pgspAllocOracle)
    (dbid : Nat) (key : pgspHashKey) (plan_id plan_len : Nat)
    (rel_oids_raw : List Nat) (invalItems : List (Nat × Nat))
    (plantime : ℚ) (num_const : Nat) (custom_cost generic_cost : ℚ)
    (st : pgspState) : pgspState :=
  let r := pgsp_allocate_plan rdepend_max oracle dbid key plan_id plan_len
    rel_oids_raw invalItems st
  if r.ok then
    pgsp_entry_alloc pgsp_max key r.ctx plantime num_const custom_cost
      generic_cost r.state
  else r.state

/-- pgsp_accum_custom_plan (pg_shared_plans.c): accumulate the cost of a
custom plan into the entry counters. -/
def pgsp_accum_custom_plan (key : pgspHashKey) (custom_cost : ℚ)
    (st : pgspState) : pgspState :=
  let bump : pgspEntry → pgspEntry := fun e =>
    { e with total_custom_cost := e.total_custom_cost + custom_cost,
             num_custom_plans := e.num_custom_plans + 1 }
  match st.store.find? (fun e => decide (e.key = key)) with
  | some _ => { st with store := store_update st.store key bump }
  | none => st

/-- The entry-matching test of pg_shared_plans_reset_internal: a zero
argument matches every value of the component. -/
def pgsp_reset_match (userid dbid : Nat) (queryid : Nat) (e : pgspEntry) :
    Bool :=
  (decide (userid = 0) || decide (e.key.userid = userid)) &&
  (decide (dbid = 0) || decide (e.key.dbid = dbid)) &&
  (decide (queryid = 0) || decide (e.key.queryid = queryid))

/-- pg_shared_plans_reset_internal (pg_shared_plans.c): remove the
matching entries (all of them when every argument is zero); if that
removed every entry, reset the global dealloc counter and the
stats_reset timestamp (`now` stands for GetCurrentTimestamp()). -/
def pg_shared_plans_reset_internal (userid dbid queryid now : Nat)
    (st : pgspState) : pgspState :=
  let num_entries := st.store.length
  let victims :=
    if userid ≠ 0 ∨ dbid ≠ 0 ∨ queryid ≠ 0 then
      st.store.filter (pgsp_reset_match userid dbid queryid)
    else st.store
  let stR := victims.foldl pgsp_entry_remove st
  if num_entries = victims.length then
    { stR with shared := { stR.shared with dealloc := 0, stats_reset := now } }
  else stR

/-- The cost-bias injection of pgsp_planner_hook (pg_shared_plans.c,
lines 634-698): the adjusted total cost of the root plan node of a
returned cached plan.  `bypass` is the bypass counter of the entry as
re-read after the executor locks were acquired. -/
def pgsp_adjust_cached_cost (pgsp_threshold : Nat)
    (disable_plancache : Bool) (cpu_operator_cost : ℚ) (nb_rels : Nat)
    (bypass : Nat) (total_cost : ℚ) : ℚ :=
  if PLANCACHE_THRESHOLD ≤ pgsp_threshold then total_cost
  else
    let total_diff : ℚ :=
      1000 * cpu_operator_cost * ((nb_rels : ℚ) + 1) * (PLANCACHE_THRESHOLD : ℚ)
    let diff0 : ℚ :=
      total_diff / ((PLANCACHE_THRESHOLD - pgsp_threshold : Nat) : ℚ) + 1 / 100
    let diff :=
      if disable_plancache then
        if PLANCACHE_THRESHOLD - pgsp_threshold < bypass then total_cost * 2
        else diff0 + total_cost * 2 * (pgsp_threshold : ℚ)
      else diff0
    let c := total_cost - diff
    if ¬ disable_plancache then (if c ≤ 0 then 1 / 1000 else c) else c

/-- The fields of a PlannedStmt the hook reads: an opaque identity, the
length of its range table and the total cost of its root plan node. -/
structure PlannedStmtM where
  plan_id : Nat
  nb_rtable : Nat
  total_cost : ℚ
deriving DecidableEq, Repr

/-- The GUC settings of pg_shared_plans read by the planner hook. -/
structure pgspGucs where
  pgsp_enabled : Bool
  pgsp_max : Nat
  pgsp_min_plantime : ℚ
  pgsp_threshold : Nat
  pgsp_rdepend_max : Nat
  pgsp_disable_plancache : Bool
  cpu_operator_cost : ℚ
deriving DecidableEq, Repr

/-- The inputs of one pgsp_planner_hook invocation: the query and its
environment, the outcome of the external planner calls the hook may make,
and the allocation oracle.  `plantime` is the measured duration of the
custom planning in ms; `cached_plan` is the deserialization of the plan
bytes held by the entry, when there is one. -/
structure pgspPlannerArgs where
  compute_query_id_off : Bool
  has_bound_params : Bool
  queryid : Nat
  is_utility : Bool
  has_row_security : Bool
  current_user_id : Nat
  dbid : Nat
  walker_rejects : Bool
  constid : Nat
  num_const : Nat
  plantime : ℚ
  custom_plan : PlannedStmtM
  custom_plan_cost : ℚ
  generic_plan : PlannedStmtM
  generic_plan_len : Nat
  generic_plan_cost : ℚ
  rel_oids : List Nat
  invalItems : List (Nat × Nat)
  cached_plan : PlannedStmtM
  oracle : pgspAllocOracle
deriving DecidableEq, Repr

/-- Where the plan returned by the hook came from: the shared cache (with
the adjusted total cost) or the host planner. -/
inductive pgspPlanSource where
  | cached (plan_id : Nat) (total_cost : ℚ)
  | host (plan_id : Nat)
deriving DecidableEq, Repr

/-- The fingerprint computed by pgsp_planner_hook. -/
def pgsp_hook_key (a : pgspPlannerArgs) : pgspHashKey :=
  { userid := if a.has_row_security then a.current_user_id else 0,
    dbid := a.dbid, queryid := a.queryid, constid := a.constid }

/-- The miss path of pgsp_planner_hook: the host planner already ran; save
the plan if the measured planning time reaches pgsp_min_plantime. -/
def pgsp_planner_hook_miss (g : pgspGucs) (a : pgspPlannerArgs)
    (st : pgspState) : pgspState × pgspPlanSource :=
  if g.pgsp_min_plantime ≤ a.plantime then
    (pgsp_cache_plan g.pgsp_max g.pgsp_rdepend_max a.oracle a.dbid
       (pgsp_hook_key a) a.generic_plan.plan_id a.generic_plan_len
       a.rel_oids a.invalItems a.plantime a.num_const a.custom_plan_cost
       a.generic_plan_cost st,
     .host a.custom_plan.plan_id)
  else (st, .host a.custom_plan.plan_id)

/-- pgsp_planner_hook (pg_shared_plans.c).  In this single-backend model
the re-validation of the entry after re-acquiring the shared lock finds
the entry unchanged. -/
def pgsp_planner_hook (g : pgspGucs) (a : pgspPlannerArgs)
    (st : pgspState) : pgspState × pgspPlanSource :=
  if ¬ g.pgsp_enabled ∨ a.queryid = 0 ∨ a.compute_query_id_off ∨
      ¬ a.has_bound_params then
    (st, .host a.custom_plan.plan_id)
  else if a.is_utility then (st, .host a.custom_plan.plan_id)
  else if a.walker_rejects then (st, .host a.custom_plan.plan_id)
  else
    let key := pgsp_hook_key a
    match st.store.find? (fun e => decide (e.key = key)) with
    | some e =>
        if e.plan ≠ none then
          let r := pgsp_choose_cache_plan g.pgsp_threshold e
          let st1 := { st with store := store_update st.store key (fun _ => r.entry) }
          if r.use_cached then
            if PLANCACHE_THRESHOLD ≤ g.pgsp_threshold then
              (st1, .cached a.cached_plan.plan_id a.cached_plan.total_cost)
            else
              (st1, .cached a.cached_plan.plan_id
                (pgsp_adjust_cached_cost g.pgsp_threshold
                  g.pgsp_disable_plancache g.cpu_operator_cost
                  a.cached_plan.nb_rtable r.entry.bypass
                  a.cached_plan.total_cost))
          else
            (if r.accum_custom_stats then
               pgsp_accum_custom_plan key a.custom_plan_cost st1
             else st1,
             .host a.custom_plan.plan_id)
        else pgsp_planner_hook_miss g a st
    | none => pgsp_planner_hook_miss g a st

/-- Events of the LOCK-class utility path, used to state ordering
properties of pgsp_ProcessUtility and pgsp_utility_do_lock. -/
inductive pgspLockEvent where
  | acquireExclusive
  | acquireShared
  | releaseLock
  | discardAndLock (oid : Nat)
  | unlockEntry (oid : Nat)
  | runDDL
  | setReadOnly
deriving DecidableEq, Repr

/-- pgsp_utility_do_lock (pgsp_utility.c), as the sequence of events it
performs for the (single, RELOID-class) DISCARD_AND_LOCK oid list
collected by pgsp_utility_pre_exec; empty when the statement produced no
lock entries (has_lock = false). -/
def pgsp_utility_do_lock_trace (oids : List Nat) : List pgspLockEvent :=
  if oids = [] then []
  else
    [.acquireExclusive] ++ oids.map .discardAndLock ++
    [.releaseLock, .acquireShared] ++ oids.map .unlockEntry

/-- pgsp_ProcessUtility (pg_shared_plans.c) for a LOCK-class statement:
pgsp_utility_do_lock runs first, then the host utility (the DDL), then —
since has_lock is set — the post block only forces read_only and releases
the shared lock still held from do_lock. -/
def pgsp_ProcessUtility_lock_trace (oids : List Nat) : List pgspLockEvent :=
  pgsp_utility_do_lock_trace oids ++ [.runDDL] ++
  (if oids = [] then [] else [.setReadOnly, .releaseLock])

/-- Modelled from the claim (and spec section 4.H): the event order the
specification asserts for LOCK-class statements — exclusive acquire,
discard-and-lock, downgrade to shared, run the DDL, reacquire exclusive,
decrement the lockers, release. -/
def specC3_lock_trace (oids : List Nat) : List pgspLockEvent :=
  if oids = [] then [.runDDL]
  else
    [.acquireExclusive] ++ oids.map .discardAndLock ++
    [.releaseLock, .acquireShared, .runDDL, .releaseLock, .acquireExclusive] ++
    oids.map .unlockEntry ++ [.releaseLock]

/-- The lockers counter of an entry depending on `oid` after a sequence
of lock events, starting from `n`. -/
def lockersFrom (oid : Nat) (n : Nat) (tr : List pgspLockEvent) : Nat :=
  tr.foldl
    (fun m ev =>
      match ev with
      | .discardAndLock o => if o = oid then m + 1 else m
      | .unlockEntry o => if o = oid then m - 1 else m
      | _ => m) n

/-- The lockers counter of an entry depending on `oid` after a trace
(starting from 0, the initial value of the atomic counter). -/
def lockersAfter (oid : Nat) (tr : List pgspLockEvent) : Nat :=
  lockersFrom oid 0 tr

/-- The store_lock mode after a sequence of lock events: `none` when not
held, `some true` when held exclusive, `some false` when held shared. -/
def lockModeAfter (tr : List pgspLockEvent) : Option Bool :=
  tr.foldl
    (fun m ev =>
      match ev with
      | .acquireExclusive => some true
      | .acquireShared => some false
      | .releaseLock => none
      | _ => m) none

/-- The prefix of a trace executed before the DDL runs. -/
def beforeDDL (tr : List pgspLockEvent) : List pgspLockEvent :=
  tr.takeWhile (fun e => e ≠ pgspLockEvent.runDDL)

/-- The prefix of a trace up to (and including) the first release of the
store lock: in the traces at hand, the discard-and-lock phase. -/
def beforeFirstRelease (tr : List pgspLockEvent) : List pgspLockEvent :=
  tr.takeWhile (fun e => e ≠ pgspLockEvent.releaseLock)

/-- Operations on the shared store, for stating store-wide invariants
over arbitrary operation sequences. -/
inductive pgspOp where
  | plannerHook (g : pgspGucs) (a : pgspPlannerArgs)
  | reset (userid dbid queryid now : Nat)
  | dealloc
  | removeEntry (e : pgspEntry)

/-- Apply one operation to the store state. -/
def pgspApplyOp (st : pgspState) : pgspOp → pgspState
  | .plannerHook g a => (pgsp_planner_hook g a st).1
  | .reset u d q now => pg_shared_plans_reset_internal u d q now st
  | .dealloc => pgsp_entry_dealloc st
  | .removeEntry e => pgsp_entry_remove st e

/-- Apply a sequence of operations to the store state. -/
def pgspApplyOps (ops : List pgspOp) (st : pgspState) : pgspState :=
  ops.foldl pgspApplyOp st

/-- Number of victims of one pgsp_entry_dealloc pass over n entries:
`nvictims = Max(10, i * USAGE_DEALLOC_PERCENT / 100); nvictims =
Min(nvictims, i)` with C integer division. -/
def pgsp_dealloc_nvictims (n : Nat) : Nat :=
  min (max 10 (n * USAGE_DEALLOC_PERCENT / 100)) n

/-- The decayed store of a dealloc pass, sorted by increasing usage. -/
def pgsp_sorted_decayed (st : pgspState) : List pgspEntry :=
  (st.store.map decayEntry).mergeSort usageLe

/-- The keys of the entries of a store. -/
def storeKeys (store : List pgspEntry) : List pgspHashKey :=
  store.map (fun e => e.key)

/-- Two reverse-dependency indexes are extensionally equal when every
lookup agrees. -/
def rdependExtEq (r1 r2 : List (pgspRdependKey × List pgspHashKey)) : Prop :=
  ∀ q, rdepend_find r1 q = rdepend_find r2 q

/-- A fingerprint is fresh for the reverse-dependency index when no
value array mentions it. -/
def keyFresh (k : pgspHashKey)
    (rd : List (pgspRdependKey × List pgspHashKey)) : Prop :=
  ∀ p ∈ rd, k ∉ p.2

/-- Invariant of the reverse-dependency index: every value array is
non-empty (an entry whose array empties is dropped). -/
def rdependNonempty (rd : List (pgspRdependKey × List pgspHashKey)) : Prop :=
  ∀ p ∈ rd, p.2 ≠ []

/-- Invariant of the reverse-dependency index (a hash table): keys are
pairwise distinct. -/
def rdependNodup (rd : List (pgspRdependKey × List pgspHashKey)) : Prop :=
  (rd.map Prod.fst).Nodup

/-- The per-lookup cleanliness used while unwinding registrations: the
fingerprint is not registered under the key, and the value there (if
any) is non-empty. -/
def rkeyClean (k : pgspHashKey)
    (rd : List (pgspRdependKey × List pgspHashKey)) (q : pgspRdependKey) :
    Prop :=
  match rdepend_find rd q with
  | none => True
  | some L => k ∉ L ∧ L ≠ []

/-- The reverse-dependency key of a relation dependency of the current
database. -/
def rkRel (dbid oid : Nat) : pgspRdependKey :=
  { dbid := dbid, classid := RELOID, oid := oid }

/-- The reverse-dependency key of an invalidation-item dependency. -/
def rkInval (dbid : Nat) (it : Nat × Nat) : pgspRdependKey :=
  { dbid := dbid, classid := it.1, oid := it.2 }

/-- A helper building a concrete entry with a given queryid and usage. -/
def mkEntry (qid : Nat) (u : ℚ) : pgspEntry :=
  { key := { userid := 0, dbid := 1, queryid := qid, constid := 0 }
    len := 4, plan := some qid, num_rels := 0, rels := none, num_rdeps := 0
    rdeps := none, num_const := 0, plantime := 1, generic_cost := 1
    discard := 0, lockers := 0, bypass := 0, usage := u
    total_custom_cost := 1, num_custom_plans := 1 }

/-- A concrete shared state with all counters zero. -/
def sharedW : pgspSharedState :=
  { cur_median_usage := ASSUMED_MEDIAN_INIT, rdepend_num := 0,
    alloced_size := 0, dealloc := 0, stats_reset := 0 }

/-- A concrete store of five entries with pairwise distinct keys. -/
def stFive : pgspState :=
  { shared := sharedW
    store := [mkEntry 1 1, mkEntry 2 2, mkEntry 3 3, mkEntry 4 4, mkEntry 5 5]
    rdepend := [] }

/-- A concrete state whose recorded median usage is 7. -/
def stMedianSeven : pgspState :=
  { shared := { sharedW with cur_median_usage := 7 }, store := [], rdepend := [] }

/-- A concrete dsa context holding only a plan. -/
def ctxW : pgspDsaContext :=
  { plan := some 9, len := 16, rels := none, num_rels := 0, rdeps := none,
    num_rdeps := 0 }

/-- A concrete GUC configuration with the default settings
(max = 100, min_plan_time = 10, threshold = 4, rdepend_max = 50). -/
def gucsW : pgspGucs :=
  { pgsp_enabled := true, pgsp_max := 100, pgsp_min_plantime := 10,
    pgsp_threshold := 4, pgsp_rdepend_max := 50,
    pgsp_disable_plancache := false, cpu_operator_cost := 1 / 400 }

/-- A concrete planner-hook invocation: a parameterized, non-utility
query with queryid 2, no dependencies to register, and a measured
planning time of exactly min_plan_time (10 ms). -/
def argsW : pgspPlannerArgs :=
  { compute_query_id_off := false, has_bound_params := true, queryid := 2,
    is_utility := false, has_row_security := false, current_user_id := 10,
    dbid := 1, walker_rejects := false, constid := 3, num_const := 1,
    plantime := 10,
    custom_plan := { plan_id := 100, nb_rtable := 1, total_cost := 50 },
    custom_plan_cost := 50,
    generic_plan := { plan_id := 101, nb_rtable := 1, total_cost := 60 },
    generic_plan_len := 32, generic_plan_cost := 60,
    rel_oids := [], invalItems := [],
    cached_plan := { plan_id := 102, nb_rtable := 1, total_cost := 60 },
    oracle := { planOk := true, relsOk := true, rdepsOk := true } }

/-- The empty state. -/
def stEmpty : pgspState := { shared := sharedW, store := [], rdepend := [] }

/-- The GUCs of a planner-hook operation agree with the store capacity
m (pgsp_max is fixed at postmaster start: PGC_POSTMASTER). -/
def opRespectsMax (m : Nat) : pgspOp → Prop
  | .plannerHook g _ => g.pgsp_max = m
  | _ => True

/-- A concrete fresh fingerprint. -/
def kW : pgspHashKey := { userid := 0, dbid := 1, queryid := 9, constid := 0 }

/-- A concrete entry used by several witnesses. -/
def entryW : pgspEntry :=
  { key := { userid := 0, dbid := 1, queryid := 2, constid := 3 }
    len := 8
    plan := some 1
    num_rels := 0
    rels := none
    num_rdeps := 0
    rdeps := none
    num_const := 0
    plantime := 2
    generic_cost := 5
    discard := 0
    lockers := 0
    bypass := 0
    usage := 1
    total_custom_cost := 24
    num_custom_plans := 4 }

/-- C1: for a cache hit on an entry with a valid plan, if
`num_custom_plans` is below the threshold the cached plan is not used and
the caller is told to accumulate the custom plan cost later; otherwise
the cached plan is used iff `generic_cost < total_custom_cost /
num_custom_plans`. -/
theorem C1_choose_cache_plan (t : Nat) (e : pgspEntry) :
    (e.num_custom_plans < t →
      (pgsp_choose_cache_plan t e).use_cached = false ∧
      (pgsp_choose_cache_plan t e).accum_custom_stats = true) ∧
    (t ≤ e.num_custom_plans →
      ((pgsp_choose_cache_plan t e).use_cached = true ↔
        e.generic_cost < e.total_custom_cost / (e.num_custom_plans : ℚ))) := by
  constructor
  · intro hlt
    have hnot : ¬ e.num_custom_plans ≥ t := Nat.not_le_of_lt hlt
    simp [pgsp_choose_cache_plan, hnot]
  · intro hge
    have h : e.num_custom_plans ≥ t := hge
    by_cases hc : e.generic_cost < e.total_custom_cost / (e.num_custom_plans : ℚ)
    · simp [pgsp_choose_cache_plan, h, hc]
    · simp [pgsp_choose_cache_plan, h, hc]

/-- Witness for C1 at a concrete entry: threshold 4, four custom plans of
average cost 6 and generic cost 5, so the cached plan is used; and at
threshold 5 the same entry is still accumulating. -/
theorem C1_choose_cache_plan_witness :
    (pgsp_choose_cache_plan 4 entryW).use_cached = true ∧
    (pgsp_choose_cache_plan 5 entryW).use_cached = false ∧
    (pgsp_choose_cache_plan 5 entryW).accum_custom_stats = true := by
  refine ⟨?_, ?_, ?_⟩
  · exact ((C1_choose_cache_plan 4 entryW).2 (by decide)).mpr (by norm_num [entryW])
  · exact ((C1_choose_cache_plan 5 entryW).1 (by decide)).1
  · exact ((C1_choose_cache_plan 5 entryW).1 (by decide)).2


/-- Unregistering never touches the store or the byte, dealloc, median
and stats_reset counters: only the reverse index and rdepend_num change. -/
theorem unregister_effects (d c o : Nat) (k : pgspHashKey) (st : pgspState) :
    (pgsp_entry_unregister_rdepend d c o k st).store = st.store ∧
    (pgsp_entry_unregister_rdepend d c o k st).shared.alloced_size =
      st.shared.alloced_size ∧
    (pgsp_entry_unregister_rdepend d c o k st).shared.dealloc =
      st.shared.dealloc ∧
    (pgsp_entry_unregister_rdepend d c o k st).shared.cur_median_usage =
      st.shared.cur_median_usage ∧
    (pgsp_entry_unregister_rdepend d c o k st).shared.stats_reset =
      st.shared.stats_reset := by
  simp only [pgsp_entry_unregister_rdepend]
  rcases hf : rdepend_find st.rdepend { dbid := d, classid := c, oid := o } with _ | keys
  · exact ⟨rfl, rfl, rfl, rfl, rfl⟩
  · dsimp only
    split <;> exact ⟨rfl, rfl, rfl, rfl, rfl⟩

/-- Unregistering preserves the store. -/
theorem unregister_store (d c o : Nat) (k : pgspHashKey) (st : pgspState) :
    (pgsp_entry_unregister_rdepend d c o k st).store = st.store :=
  (unregister_effects d c o k st).1

/-- Unregistering preserves alloced_size. -/
theorem unregister_alloced (d c o : Nat) (k : pgspHashKey) (st : pgspState) :
    (pgsp_entry_unregister_rdepend d c o k st).shared.alloced_size =
      st.shared.alloced_size :=
  (unregister_effects d c o k st).2.1

/-- Unregistering preserves the dealloc counter. -/
theorem unregister_dealloc (d c o : Nat) (k : pgspHashKey) (st : pgspState) :
    (pgsp_entry_unregister_rdepend d c o k st).shared.dealloc =
      st.shared.dealloc :=
  (unregister_effects d c o k st).2.2.1

/-- Unregistering preserves the recorded median usage. -/
theorem unregister_median (d c o : Nat) (k : pgspHashKey) (st : pgspState) :
    (pgsp_entry_unregister_rdepend d c o k st).shared.cur_median_usage =
      st.shared.cur_median_usage :=
  (unregister_effects d c o k st).2.2.2.1

/-- Unregistering preserves the stats_reset timestamp. -/
theorem unregister_stats_reset (d c o : Nat) (k : pgspHashKey)
    (st : pgspState) :
    (pgsp_entry_unregister_rdepend d c o k st).shared.stats_reset =
      st.shared.stats_reset :=
  (unregister_effects d c o k st).2.2.2.2

/-- A fold of state transformers that each preserve a projection
preserves the projection. -/
theorem foldl_proj_eq {α β : Type} (proj : pgspState → β)
    (f : pgspState → α → pgspState)
    (h : ∀ s a, proj (f s a) = proj s) :
    ∀ (l : List α) (st : pgspState), proj (l.foldl f st) = proj st := by
  intro l
  induction l with
  | nil => intro st; rfl
  | cons a t ih => intro st; rw [List.foldl_cons, ih, h]

/-- freeDsmem only changes alloced_size. -/
theorem freeDsmem_store (n : Nat) (st : pgspState) :
    (freeDsmem n st).store = st.store := rfl

/-- useDsmem only changes alloced_size. -/
theorem useDsmem_store (n : Nat) (st : pgspState) :
    (useDsmem n st).store = st.store := rfl

/-- pgsp_entry_remove removes exactly the entries bearing the key of the
removed entry (hash-table semantics: at most one), and nothing else. -/
theorem pgsp_entry_remove_store (st : pgspState) (e : pgspEntry) :
    (pgsp_entry_remove st e).store =
      st.store.filter (fun x => decide (x.key ≠ e.key)) := by
  simp only [pgsp_entry_remove]
  rcases hp : e.plan with _ | p <;>
    split_ifs <;>
      simp [freeDsmem_store,
        foldl_proj_eq (fun s => s.store) _
          (fun s a => unregister_store _ _ _ _ s)]

/-- pgsp_entry_remove preserves the dealloc counter. -/
theorem pgsp_entry_remove_dealloc (st : pgspState) (e : pgspEntry) :
    (pgsp_entry_remove st e).shared.dealloc = st.shared.dealloc := by
  simp only [pgsp_entry_remove]
  rcases hp : e.plan with _ | p <;>
    split_ifs <;>
      simp [freeDsmem,
        foldl_proj_eq (fun s => s.shared.dealloc) _
          (fun s a => unregister_dealloc _ _ _ _ s)]

/-- pgsp_entry_remove preserves the recorded median usage. -/
theorem pgsp_entry_remove_median (st : pgspState) (e : pgspEntry) :
    (pgsp_entry_remove st e).shared.cur_median_usage =
      st.shared.cur_median_usage := by
  simp only [pgsp_entry_remove]
  rcases hp : e.plan with _ | p <;>
    split_ifs <;>
      simp [freeDsmem,
        foldl_proj_eq (fun s => s.shared.cur_median_usage) _
          (fun s a => unregister_median _ _ _ _ s)]

/-- pgsp_entry_remove preserves the stats_reset timestamp. -/
theorem pgsp_entry_remove_stats_reset (st : pgspState) (e : pgspEntry) :
    (pgsp_entry_remove st e).shared.stats_reset =
      st.shared.stats_reset := by
  simp only [pgsp_entry_remove]
  rcases hp : e.plan with _ | p <;>
    split_ifs <;>
      simp [freeDsmem,
        foldl_proj_eq (fun s => s.shared.stats_reset) _
          (fun s a => unregister_stats_reset _ _ _ _ s)]

/-- Folding pgsp_entry_remove over a list of victims filters out exactly
the entries bearing a victim key. -/
theorem foldl_remove_store (victims : List pgspEntry) (st : pgspState) :
    (victims.foldl pgsp_entry_remove st).store =
      st.store.filter (fun x => decide (∀ v ∈ victims, x.key ≠ v.key)) := by
  induction victims generalizing st with
  | nil => simp
  | cons v vs ih =>
      rw [List.foldl_cons, ih, pgsp_entry_remove_store, List.filter_filter]
      apply List.filter_congr
      intro x _
      simp [List.forall_mem_cons, Bool.and_comm]

/-- Folding pgsp_entry_remove preserves the dealloc counter. -/
theorem foldl_remove_dealloc (victims : List pgspEntry) (st : pgspState) :
    (victims.foldl pgsp_entry_remove st).shared.dealloc =
      st.shared.dealloc :=
  foldl_proj_eq (fun s => s.shared.dealloc) _
    (fun s a => pgsp_entry_remove_dealloc s a) victims st

/-- Folding pgsp_entry_remove preserves the recorded median usage. -/
theorem foldl_remove_median (victims : List pgspEntry) (st : pgspState) :
    (victims.foldl pgsp_entry_remove st).shared.cur_median_usage =
      st.shared.cur_median_usage :=
  foldl_proj_eq (fun s => s.shared.cur_median_usage) _
    (fun s a => pgsp_entry_remove_median s a) victims st

/-- Folding pgsp_entry_remove preserves the stats_reset timestamp. -/
theorem foldl_remove_stats_reset (victims : List pgspEntry) (st : pgspState) :
    (victims.foldl pgsp_entry_remove st).shared.stats_reset =
      st.shared.stats_reset :=
  foldl_proj_eq (fun s => s.shared.stats_reset) _
    (fun s a => pgsp_entry_remove_stats_reset s a) victims st

/-- The store after one dealloc pass: every entry decayed, and the
entries whose key is among the nvictims least-used (decayed, sorted)
entries removed. -/
theorem pgsp_entry_dealloc_store (st : pgspState) :
    (pgsp_entry_dealloc st).store =
      (st.store.map decayEntry).filter
        (fun x => decide (∀ v ∈ (pgsp_sorted_decayed st).take
          (pgsp_dealloc_nvictims st.store.length), x.key ≠ v.key)) := by
  simp only [pgsp_entry_dealloc]
  rw [foldl_remove_store]
  split <;>
    simp [pgsp_sorted_decayed, pgsp_dealloc_nvictims, List.length_mergeSort,
      List.length_map]

/-- One dealloc pass increments the global dealloc counter by exactly
one. -/
theorem pgsp_entry_dealloc_dealloc (st : pgspState) :
    (pgsp_entry_dealloc st).shared.dealloc = st.shared.dealloc + 1 := by
  simp only [pgsp_entry_dealloc]
  split <;> simp [foldl_remove_dealloc]

/-- One dealloc pass over a non-empty store records the usage of the
middle element of the decayed, sorted entries as the new median. -/
theorem pgsp_entry_dealloc_median (st : pgspState)
    (h : 0 < st.store.length) :
    (pgsp_entry_dealloc st).shared.cur_median_usage =
      ((pgsp_sorted_decayed st).getD (st.store.length / 2) defaultEntry).usage := by
  simp only [pgsp_entry_dealloc]
  rw [List.length_mergeSort, List.length_map, if_pos h, foldl_remove_median]
  simp [pgsp_sorted_decayed]

/-- One dealloc pass preserves the stats_reset timestamp. -/
theorem pgsp_entry_dealloc_stats_reset (st : pgspState) :
    (pgsp_entry_dealloc st).shared.stats_reset = st.shared.stats_reset := by
  simp only [pgsp_entry_dealloc]
  split <;> simp [foldl_remove_stats_reset]

/-- Decaying an entry does not change its key. -/
theorem decayEntry_key (e : pgspEntry) : (decayEntry e).key = e.key := rfl

/-- A filter that drops at least one element of the list is strictly
shorter. -/
theorem length_filter_lt {α : Type} (p : α → Bool) (l : List α) (x : α)
    (hx : x ∈ l) (hpx : p x = false) :
    (l.filter p).length < l.length := by
  induction l with
  | nil => cases hx
  | cons a t ih =>
      rcases List.mem_cons.mp hx with rfl | hxt
      · simp only [List.filter_cons, hpx, Bool.false_eq_true, if_false]
        exact Nat.lt_succ_of_le (List.length_filter_le p t)
      · by_cases hpa : p a = true
        · simp only [List.filter_cons, if_pos hpa, List.length_cons]
          exact Nat.succ_lt_succ (ih hxt)
        · simp only [List.filter_cons, if_neg hpa]
          exact Nat.lt_succ_of_le (Nat.le_of_lt (ih hxt))

/-- The number of victims of a dealloc pass over a non-empty store is
at least one. -/
theorem pgsp_dealloc_nvictims_pos (n : Nat) (h : 0 < n) :
    0 < pgsp_dealloc_nvictims n := by
  unfold pgsp_dealloc_nvictims
  exact Nat.lt_min.mpr ⟨Nat.lt_of_lt_of_le (by norm_num) (Nat.le_max_left _ _), h⟩

/-- The sorted decayed store has the length of the store. -/
theorem pgsp_sorted_decayed_length (st : pgspState) :
    (pgsp_sorted_decayed st).length = st.store.length := by
  unfold pgsp_sorted_decayed
  rw [List.length_mergeSort, List.length_map]

/-- The keys of the sorted decayed store are the keys of the store, up
to permutation; in particular they are pairwise distinct whenever the
store keys are. -/
theorem pgsp_sorted_decayed_keys_nodup (st : pgspState)
    (hnd : (storeKeys st.store).Nodup) :
    ((pgsp_sorted_decayed st).map (fun e => e.key)).Nodup := by
  have hperm : (pgsp_sorted_decayed st).Perm (st.store.map decayEntry) :=
    List.mergeSort_perm _ usageLe
  have hmap := hperm.map (fun e => e.key)
  have hkeys : (st.store.map decayEntry).map (fun e => e.key) =
      storeKeys st.store := by
    unfold storeKeys
    rw [List.map_map]
    rfl
  rw [hkeys] at hmap
  exact hmap.nodup_iff.mpr hnd

/-- A dealloc pass over a non-empty store strictly shrinks it. -/
theorem pgsp_entry_dealloc_length_lt (st : pgspState)
    (h : 0 < st.store.length) :
    (pgsp_entry_dealloc st).store.length < st.store.length := by
  rw [pgsp_entry_dealloc_store]
  have hlen : (pgsp_sorted_decayed st).length = st.store.length :=
    pgsp_sorted_decayed_length st
  have hnv : 0 < pgsp_dealloc_nvictims st.store.length :=
    pgsp_dealloc_nvictims_pos _ h
  -- the take is non-empty, pick its head
  have htake : 0 < ((pgsp_sorted_decayed st).take
      (pgsp_dealloc_nvictims st.store.length)).length := by
    rw [List.length_take]
    exact Nat.lt_min.mpr ⟨hnv, by rw [hlen]; exact h⟩
  obtain ⟨v, hv⟩ := List.exists_mem_of_length_pos htake
  have hvs : v ∈ pgsp_sorted_decayed st := List.mem_of_mem_take hv
  have hvd : v ∈ st.store.map decayEntry :=
    (List.mergeSort_perm _ usageLe).subset hvs
  have hpv : (fun x => decide (∀ w ∈ (pgsp_sorted_decayed st).take
      (pgsp_dealloc_nvictims st.store.length), x.key ≠ w.key)) v = false := by
    simp only [decide_eq_false_iff_not, not_forall]
    exact ⟨v, hv, fun hne => hne rfl⟩
  calc ((st.store.map decayEntry).filter _).length
      < (st.store.map decayEntry).length :=
        length_filter_lt _ _ v hvd hpv
    _ = st.store.length := List.length_map _ _

/-- Over a store with pairwise distinct keys, the survivors of a dealloc
pass are exactly the decayed entries above the victim cut of the sorted
order (up to permutation). -/
theorem pgsp_entry_dealloc_perm (st : pgspState)
    (hnd : (storeKeys st.store).Nodup) :
    ((pgsp_entry_dealloc st).store).Perm
      ((pgsp_sorted_decayed st).drop (pgsp_dealloc_nvictims st.store.length)) := by
  rw [pgsp_entry_dealloc_store]
  set nv := pgsp_dealloc_nvictims st.store.length with hnv
  set sorted := pgsp_sorted_decayed st with hsorted
  set p : pgspEntry → Bool :=
    (fun x => decide (∀ v ∈ sorted.take nv, x.key ≠ v.key)) with hp
  have hperm : sorted.Perm (st.store.map decayEntry) :=
    List.mergeSort_perm _ usageLe
  have h1 : ((st.store.map decayEntry).filter p).Perm (sorted.filter p) :=
    (hperm.filter p).symm
  have htake : (sorted.take nv).filter p = [] := by
    apply List.filter_eq_nil_iff.mpr
    intro v hv
    simp only [hp, decide_eq_true_eq, not_forall]
    exact ⟨v, hv, fun hne => hne rfl⟩
  have hkeysnd : ((sorted.take nv).map (fun e => e.key) ++
      (sorted.drop nv).map (fun e => e.key)).Nodup := by
    rw [← List.map_append, List.take_append_drop]
    exact pgsp_sorted_decayed_keys_nodup st hnd
  have hdisj := (List.nodup_append.mp hkeysnd).2.2
  have hdrop : (sorted.drop nv).filter p = sorted.drop nv := by
    apply List.filter_eq_self.mpr
    intro x hx
    simp only [hp, decide_eq_true_eq]
    intro w hw hxw
    exact hdisj (hxw ▸ List.mem_map_of_mem _ hw) (List.mem_map_of_mem _ hx)
  have hfil : sorted.filter p = sorted.drop nv := by
    conv =>
      lhs
      rw [← List.take_append_drop nv sorted]
    rw [List.filter_append, htake, hdrop, List.nil_append]
  rw [hfil] at h1
  exact h1

/-- Over a store with pairwise distinct keys, a dealloc pass removes
exactly nvictims entries. -/
theorem pgsp_entry_dealloc_length (st : pgspState)
    (hnd : (storeKeys st.store).Nodup) :
    (pgsp_entry_dealloc st).store.length =
      st.store.length - pgsp_dealloc_nvictims st.store.length := by
  rw [(pgsp_entry_dealloc_perm st hnd).length_eq, List.length_drop,
    pgsp_sorted_decayed_length]

/-- With enough fuel, the make-space loop body drives the store below
pgsp_max (pgsp_max is at least 1; the GUC lower bound is 5). -/
theorem pgsp_make_space_go_lt (pgsp_max : Nat) (hmax : 1 ≤ pgsp_max) :
    ∀ (fuel : Nat) (st : pgspState), st.store.length < fuel →
      (pgsp_make_space_go fuel pgsp_max st).store.length < pgsp_max := by
  intro fuel
  induction fuel with
  | zero => intro st h; exact absurd h (Nat.not_lt_zero _)
  | succ f ih =>
      intro st h
      rw [pgsp_make_space_go]
      split
      · rename_i hge
        apply ih
        have hpos : 0 < st.store.length := Nat.lt_of_lt_of_le hmax hge
        have hlt := pgsp_entry_dealloc_length_lt st hpos
        omega
      · rename_i hlt
        omega

/-- After the make-space loop the store is strictly below pgsp_max. -/
theorem pgsp_make_space_length_lt (pgsp_max : Nat) (st : pgspState)
    (hmax : 1 ≤ pgsp_max) :
    (pgsp_make_space pgsp_max st).store.length < pgsp_max :=
  pgsp_make_space_go_lt pgsp_max hmax _ st (Nat.lt_succ_self _)

/-- The fuel of pgsp_make_space_go is irrelevant as long as it exceeds
the store size, which justifies reading pgsp_make_space as the C while
loop (whose guard can only be entered, for pgsp_max at least 1, on a
non-empty store that each pgsp_entry_dealloc strictly shrinks). -/
theorem pgsp_make_space_go_fuel_irrel (pgsp_max : Nat) (hmax : 1 ≤ pgsp_max) :
    ∀ (f1 : Nat) (f2 : Nat) (st : pgspState), st.store.length < f1 →
      st.store.length < f2 →
      pgsp_make_space_go f1 pgsp_max st = pgsp_make_space_go f2 pgsp_max st := by
  intro f1
  induction f1 with
  | zero => intro f2 st h1 _; exact absurd h1 (Nat.not_lt_zero _)
  | succ f ih =>
      intro f2 st h1 h2
      cases f2 with
      | zero => exact absurd h2 (Nat.not_lt_zero _)
      | succ f2 =>
          rw [pgsp_make_space_go, pgsp_make_space_go]
          split
          · rename_i hge
            have hpos : 0 < st.store.length := Nat.lt_of_lt_of_le hmax hge
            have hlt := pgsp_entry_dealloc_length_lt st hpos
            exact ih f2 _ (by omega) (by omega)
          · rfl

/-- The while-loop equation of the make-space loop: for pgsp_max at
least 1, pgsp_make_space runs pgsp_entry_dealloc while the store has at
least pgsp_max entries. -/
theorem pgsp_make_space_eq (pgsp_max : Nat) (st : pgspState)
    (hmax : 1 ≤ pgsp_max) :
    pgsp_make_space pgsp_max st =
      if pgsp_max ≤ st.store.length then
        pgsp_make_space pgsp_max (pgsp_entry_dealloc st)
      else st := by
  unfold pgsp_make_space
  rw [pgsp_make_space_go]
  split
  · rename_i hge
    have hpos : 0 < st.store.length := Nat.lt_of_lt_of_le hmax hge
    have hlt := pgsp_entry_dealloc_length_lt st hpos
    exact pgsp_make_space_go_fuel_irrel pgsp_max hmax _ _ _ (by omega)
      (Nat.lt_succ_self _)
  · rfl

/-- Registering touches only the reverse index and rdepend_num. -/
theorem register_effects (m d c o : Nat) (k : pgspHashKey) (st : pgspState) :
    (pgsp_entry_register_rdepend m d c o k st).2.store = st.store ∧
    (pgsp_entry_register_rdepend m d c o k st).2.shared.alloced_size =
      st.shared.alloced_size ∧
    (pgsp_entry_register_rdepend m d c o k st).2.shared.dealloc =
      st.shared.dealloc := by
  simp only [pgsp_entry_register_rdepend]
  rcases hf : rdepend_find st.rdepend { dbid := d, classid := c, oid := o } with _ | keys
  · exact ⟨rfl, rfl, rfl⟩
  · dsimp only
    split
    · exact ⟨rfl, rfl, rfl⟩
    · split <;> exact ⟨rfl, rfl, rfl⟩

/-- Registering preserves the store. -/
theorem register_store (m d c o : Nat) (k : pgspHashKey) (st : pgspState) :
    (pgsp_entry_register_rdepend m d c o k st).2.store = st.store :=
  (register_effects m d c o k st).1

/-- Registering preserves alloced_size. -/
theorem register_alloced (m d c o : Nat) (k : pgspHashKey) (st : pgspState) :
    (pgsp_entry_register_rdepend m d c o k st).2.shared.alloced_size =
      st.shared.alloced_size :=
  (register_effects m d c o k st).2.1

/-- The relation-registration loop preserves the store. -/
theorem pgsp_register_rels_store (m d : Nat) (k : pgspHashKey) :
    ∀ (oids : List Nat) (st : pgspState),
      (pgsp_register_rels m d k oids st).2.2.store = st.store := by
  intro oids
  induction oids with
  | nil => intro st; rfl
  | cons o t ih =>
      intro st
      rw [pgsp_register_rels]
      split
      · dsimp only; rw [ih, register_store]
      · exact register_store m d RELOID o k st

/-- The relation-registration loop preserves alloced_size. -/
theorem pgsp_register_rels_alloced (m d : Nat) (k : pgspHashKey) :
    ∀ (oids : List Nat) (st : pgspState),
      (pgsp_register_rels m d k oids st).2.2.shared.alloced_size =
        st.shared.alloced_size := by
  intro oids
  induction oids with
  | nil => intro st; rfl
  | cons o t ih =>
      intro st
      rw [pgsp_register_rels]
      split
      · dsimp only; rw [ih, register_alloced]
      · exact register_alloced m d RELOID o k st

/-- The invalitem-registration loop preserves the store. -/
theorem pgsp_register_invals_store (m d : Nat) (k : pgspHashKey) :
    ∀ (items : List (Nat × Nat)) (st : pgspState),
      (pgsp_register_invals m d k items st).2.2.store = st.store := by
  intro items
  induction items with
  | nil => intro st; rfl
  | cons it t ih =>
      intro st
      rw [pgsp_register_invals]
      split
      · dsimp only
        split
        · dsimp only; rw [ih, register_store]
        · exact register_store m d it.1 it.2 k st
      · exact ih st

/-- The invalitem-registration loop preserves alloced_size. -/
theorem pgsp_register_invals_alloced (m d : Nat) (k : pgspHashKey) :
    ∀ (items : List (Nat × Nat)) (st : pgspState),
      (pgsp_register_invals m d k items st).2.2.shared.alloced_size =
        st.shared.alloced_size := by
  intro items
  induction items with
  | nil => intro st; rfl
  | cons it t ih =>
      intro st
      rw [pgsp_register_invals]
      split
      · dsimp only
        split
        · dsimp only; rw [ih, register_alloced]
        · exact register_alloced m d it.1 it.2 k st
      · exact ih st

/-- The invalitem unwind preserves the store. -/
theorem pgsp_unwind_invals_store (d : Nat) (k : pgspHashKey)
    (items : List (Nat × Nat)) (nb : Nat) (st : pgspState) :
    (pgsp_unwind_invals d k items nb st).store = st.store :=
  foldl_proj_eq (fun s => s.store) _
    (fun s _ => unregister_store _ _ _ _ s) _ st

/-- The invalitem unwind preserves alloced_size. -/
theorem pgsp_unwind_invals_alloced (d : Nat) (k : pgspHashKey)
    (items : List (Nat × Nat)) (nb : Nat) (st : pgspState) :
    (pgsp_unwind_invals d k items nb st).shared.alloced_size =
      st.shared.alloced_size :=
  foldl_proj_eq (fun s => s.shared.alloced_size) _
    (fun s _ => unregister_alloced _ _ _ _ s) _ st

/-- The relation unwind preserves the store. -/
theorem pgsp_unwind_rels_store (d : Nat) (k : pgspHashKey)
    (oids : List Nat) (nb : Nat) (st : pgspState) :
    (pgsp_unwind_rels d k oids nb st).store = st.store := by
  unfold pgsp_unwind_rels
  split
  · rw [freeDsmem_store]
    exact foldl_proj_eq (fun s => s.store) _
      (fun s a => unregister_store _ _ _ _ s) _ st
  · rfl

/-- The relation unwind frees the oid array bytes and is otherwise
neutral on alloced_size. -/
theorem pgsp_unwind_rels_alloced (d : Nat) (k : pgspHashKey)
    (oids : List Nat) (nb : Nat) (st : pgspState) (h : oids ≠ []) :
    (pgsp_unwind_rels d k oids nb st).shared.alloced_size =
      st.shared.alloced_size - oids.length * SIZEOF_OID := by
  unfold pgsp_unwind_rels
  rw [if_pos (List.length_pos.mpr h)]
  show (freeDsmem _ _).shared.alloced_size = _
  unfold freeDsmem
  dsimp only
  rw [foldl_proj_eq (fun s => s.shared.alloced_size) _
    (fun s a => unregister_alloced _ _ _ _ s) _ st]

/-- pgsp_allocate_plan never touches the store: entries are only created
or updated later, by pgsp_entry_alloc. -/
theorem pgsp_allocate_plan_store (m : Nat) (oracle : pgspAllocOracle)
    (d : Nat) (k : pgspHashKey) (pid plen : Nat) (raw : List Nat)
    (items : List (Nat × Nat)) (st : pgspState) :
    (pgsp_allocate_plan m oracle d k pid plen raw items st).state.store =
      st.store := by
  unfold pgsp_allocate_plan
  repeat' (first | split | dsimp only)
  all_goals
    simp [freeDsmem_store, useDsmem_store, pgsp_unwind_rels_store,
      pgsp_unwind_invals_store, pgsp_register_invals_store,
      pgsp_register_rels_store]

/-- Updating an entry in place preserves the number of entries. -/
theorem store_update_length (store : List pgspEntry) (k : pgspHashKey)
    (f : pgspEntry → pgspEntry) :
    (store_update store k f).length = store.length := by
  unfold store_update
  rw [List.length_map]

/-- Folding relation unregistrations preserves the store. -/
theorem foldl_unreg_oids_store (d : Nat) (k : pgspHashKey) (l : List Nat)
    (st : pgspState) :
    (l.foldl (fun acc oid =>
      pgsp_entry_unregister_rdepend d RELOID oid k acc) st).store =
      st.store :=
  foldl_proj_eq (fun s => s.store) _
    (fun s _ => unregister_store _ _ _ _ s) _ st

/-- Folding invalitem unregistrations preserves the store. -/
theorem foldl_unreg_rdeps_store (k : pgspHashKey)
    (l : List pgspRdependKey) (st : pgspState) :
    (l.foldl (fun acc rk =>
      pgsp_entry_unregister_rdepend rk.dbid rk.classid rk.oid k acc) st).store =
      st.store :=
  foldl_proj_eq (fun s => s.store) _
    (fun s _ => unregister_store _ _ _ _ s) _ st

/-- Folding guarded relation unregistrations preserves the store. -/
theorem foldl_ite_unreg_oids_store (nw : List Nat) (d : Nat)
    (k : pgspHashKey) (old : List Nat) (st : pgspState) :
    (old.foldl (fun acc oid =>
      if oid ∈ nw then acc
      else pgsp_entry_unregister_rdepend d RELOID oid k acc) st).store =
      st.store := by
  refine foldl_proj_eq (fun s => s.store) _ ?_ _ st
  intro s a
  dsimp only
  split
  · rfl
  · exact unregister_store _ _ _ _ s

/-- Folding guarded invalitem unregistrations preserves the store. -/
theorem foldl_ite_unreg_rdeps_store (nw : List pgspRdependKey)
    (k : pgspHashKey) (old : List pgspRdependKey) (st : pgspState) :
    (old.foldl (fun acc rk =>
      if rk ∈ nw then acc
      else pgsp_entry_unregister_rdepend rk.dbid rk.classid rk.oid k acc)
      st).store = st.store := by
  refine foldl_proj_eq (fun s => s.store) _ ?_ _ st
  intro s a
  dsimp only
  split
  · rfl
  · exact unregister_store _ _ _ _ s

/-- The reconciliation block preserves the number of entries. -/
theorem pgsp_entry_alloc_reconcile_length (k : pgspHashKey)
    (ctx : pgspDsaContext) (e0 : pgspEntry) (st : pgspState) :
    (pgsp_entry_alloc_reconcile k ctx e0 st).store.length =
      st.store.length := by
  unfold pgsp_entry_alloc_reconcile
  repeat' (first | split | dsimp only)
  all_goals
    simp [store_update_length, freeDsmem_store, foldl_ite_unreg_oids_store,
      foldl_ite_unreg_rdeps_store]

/-- pgsp_entry_alloc keeps the store within pgsp_max entries: the
make-space loop leaves the store strictly below pgsp_max and at most one
entry is then inserted. -/
theorem pgsp_entry_alloc_length_le (m : Nat) (k : pgspHashKey)
    (ctx : pgspDsaContext) (pt : ℚ) (nc : Nat) (cc gc : ℚ)
    (st : pgspState) (hmax : 1 ≤ m) :
    (pgsp_entry_alloc m k ctx pt nc cc gc st).store.length ≤ m := by
  have hms := pgsp_make_space_length_lt m st hmax
  simp only [pgsp_entry_alloc]
  generalize (List.find? (fun e => decide (e.key = k))
    (pgsp_make_space m st).store) = r
  cases r with
  | none =>
      simp only [List.length_cons]
      omega
  | some e0 =>
      dsimp only
      repeat' (first | split | dsimp only)
      all_goals
        simp only [pgsp_entry_alloc_reconcile_length, store_update_length,
          freeDsmem_store, foldl_unreg_oids_store, foldl_unreg_rdeps_store]
      all_goals omega

/-- Accumulating custom-plan statistics preserves the number of
entries. -/
theorem pgsp_accum_custom_plan_length (k : pgspHashKey) (c : ℚ)
    (st : pgspState) :
    (pgsp_accum_custom_plan k c st).store.length = st.store.length := by
  simp only [pgsp_accum_custom_plan]
  split <;> simp [store_update_length]

/-- pgsp_cache_plan keeps the store within pgsp_max entries. -/
theorem pgsp_cache_plan_length_le (m rmax : Nat) (oracle : pgspAllocOracle)
    (d : Nat) (k : pgspHashKey) (pid plen : Nat) (raw : List Nat)
    (items : List (Nat × Nat)) (pt : ℚ) (nc : Nat) (cc gc : ℚ)
    (st : pgspState) (hmax : 1 ≤ m) (hst : st.store.length ≤ m) :
    (pgsp_cache_plan m rmax oracle d k pid plen raw items pt nc cc gc
      st).store.length ≤ m := by
  unfold pgsp_cache_plan
  dsimp only
  split
  · exact pgsp_entry_alloc_length_le m k _ pt nc cc gc _ hmax
  · rw [pgsp_allocate_plan_store]
    exact hst

/-- One planner-hook invocation keeps the store within pgsp_max
entries. -/
theorem pgsp_planner_hook_length_le (g : pgspGucs) (a : pgspPlannerArgs)
    (st : pgspState) (hmax : 1 ≤ g.pgsp_max)
    (hst : st.store.length ≤ g.pgsp_max) :
    (pgsp_planner_hook g a st).1.store.length ≤ g.pgsp_max := by
  simp only [pgsp_planner_hook, pgsp_planner_hook_miss]
  repeat' (first | split | dsimp only)
  all_goals
    first
    | exact hst
    | (simp only [store_update_length, pgsp_accum_custom_plan_length]
       exact hst)
    | exact pgsp_cache_plan_length_le _ _ _ _ _ _ _ _ _ _ _ _ _ _ hmax hst

/-- A reset never grows the store. -/
theorem pg_shared_plans_reset_internal_length_le (u d q now : Nat)
    (st : pgspState) :
    (pg_shared_plans_reset_internal u d q now st).store.length ≤
      st.store.length := by
  unfold pg_shared_plans_reset_internal
  repeat' (first | split | dsimp only)
  all_goals
    rw [foldl_remove_store]
  all_goals
    exact List.length_filter_le _ _

/-- A dealloc pass never grows the store. -/
theorem pgsp_entry_dealloc_length_le (st : pgspState) :
    (pgsp_entry_dealloc st).store.length ≤ st.store.length := by
  rw [pgsp_entry_dealloc_store]
  calc ((st.store.map decayEntry).filter _).length
      ≤ (st.store.map decayEntry).length := List.length_filter_le _ _
    _ = st.store.length := List.length_map _ _

/-- Removing an entry never grows the store. -/
theorem pgsp_entry_remove_length_le (st : pgspState) (e : pgspEntry) :
    (pgsp_entry_remove st e).store.length ≤ st.store.length := by
  rw [pgsp_entry_remove_store]
  exact List.length_filter_le _ _

/-- Any one operation keeps the store within the configured capacity. -/
theorem pgspApplyOp_length_le (m : Nat) (op : pgspOp) (st : pgspState)
    (hmax : 1 ≤ m) (hop : opRespectsMax m op)
    (hst : st.store.length ≤ m) :
    (pgspApplyOp st op).store.length ≤ m := by
  cases op with
  | plannerHook g a =>
      have hg : g.pgsp_max = m := hop
      subst hg
      exact pgsp_planner_hook_length_le g a st hmax hst
  | reset u d q now =>
      exact Nat.le_trans (pg_shared_plans_reset_internal_length_le u d q now st) hst
  | dealloc =>
      exact Nat.le_trans (pgsp_entry_dealloc_length_le st) hst
  | removeEntry e =>
      exact Nat.le_trans (pgsp_entry_remove_length_le st e) hst

/-- Any sequence of operations keeps the store within the configured
capacity. -/
theorem pgspApplyOps_length_le (m : Nat) (ops : List pgspOp) :
    ∀ (st : pgspState), 1 ≤ m → (∀ op ∈ ops, opRespectsMax m op) →
      st.store.length ≤ m → (pgspApplyOps ops st).store.length ≤ m := by
  induction ops with
  | nil => intro st _ _ hst; exact hst
  | cons op t ih =>
      intro st hmax hops hst
      show (pgspApplyOps t (pgspApplyOp st op)).store.length ≤ m
      exact ih _ hmax (fun o ho => hops o (List.mem_cons_of_mem _ ho))
        (pgspApplyOp_length_le m op st hmax (hops op (List.mem_cons_self _ _))
          hst)

/-- C2: the store never holds more than pgsp_max entries.  Starting from
any state within the capacity bound, any sequence of operations (planner
hook invocations, resets, eviction passes, removals) stays within the
bound; and before a new entry is inserted the make-space loop has
already driven the store strictly below pgsp_max, so the insertion
cannot exceed it. -/
theorem C2_capacity (m : Nat) (ops : List pgspOp) (st : pgspState)
    (hmax : 1 ≤ m) (hops : ∀ op ∈ ops, opRespectsMax m op)
    (hst : st.store.length ≤ m) :
    (pgspApplyOps ops st).store.length ≤ m ∧
    (pgsp_make_space m st).store.length < m :=
  ⟨pgspApplyOps_length_le m ops st hmax hops hst,
   pgsp_make_space_length_lt m st hmax⟩

/-- Witness for C2 with the minimal legal capacity (5), a full store of
five entries and a dealloc followed by a full reset. -/
theorem C2_capacity_witness :
    (pgspApplyOps [pgspOp.dealloc, pgspOp.reset 0 0 0 7] stFive).store.length ≤ 5 ∧
    (pgsp_make_space 5 stFive).store.length < 5 :=
  C2_capacity 5 [pgspOp.dealloc, pgspOp.reset 0 0 0 7] stFive (by decide)
    (by
      intro op h
      fin_cases h <;> trivial)
    (by decide)

/-- C5 (amended): a capacity-driven eviction pass multiplies every usage
by 0.99 and sorts by usage ascending (the survivors are, up to
permutation, the decayed entries above the victim cut of the sorted
order), removes exactly `min(N, max(10, N*5/100))` entries — C integer
division, and never more than the store holds — via the full remove
path, and increments the global dealloc counter by one. -/
theorem C5_entry_dealloc (st : pgspState)
    (hnd : (storeKeys st.store).Nodup) :
    (pgsp_entry_dealloc st).store.length =
      st.store.length - pgsp_dealloc_nvictims st.store.length ∧
    (pgsp_entry_dealloc st).shared.dealloc = st.shared.dealloc + 1 ∧
    ((pgsp_entry_dealloc st).store).Perm
      ((pgsp_sorted_decayed st).drop (pgsp_dealloc_nvictims st.store.length)) :=
  ⟨pgsp_entry_dealloc_length st hnd, pgsp_entry_dealloc_dealloc st,
   pgsp_entry_dealloc_perm st hnd⟩

/-- Witness for C5 at a concrete five-entry store: all five entries are
removed (min(5, max(10, 0)) = 5) and the dealloc counter moves from 0 to
1. -/
theorem C5_entry_dealloc_witness :
    (pgsp_entry_dealloc stFive).store.length = 5 - pgsp_dealloc_nvictims 5 ∧
    (pgsp_entry_dealloc stFive).shared.dealloc = 0 + 1 := by
  have h := C5_entry_dealloc stFive (by decide)
  exact ⟨h.1, h.2.1⟩

unseal List.merge List.mergeSort Rat.mul Rat.add Rat.sub Rat.inv in
/-- Counterexample for C5 as stated: over a store of N = 5 entries the
pass removes 5 entries, not the claimed `max(10, ceil(0.05*5)) = 10`. -/
theorem C5_counterexample :
    stFive.store.length - (pgsp_entry_dealloc stFive).store.length = 5 ∧
    max 10 ((5 * stFive.store.length + 99) / 100) = 10 ∧ (5 : Nat) ≠ 10 := by
  refine ⟨?_, by decide, by decide⟩
  decide

/-- Entries surviving a dealloc pass bear keys of the original store. -/
theorem pgsp_entry_dealloc_keys_subset (st : pgspState) (e : pgspEntry)
    (he : e ∈ (pgsp_entry_dealloc st).store) :
    e.key ∈ storeKeys st.store := by
  rw [pgsp_entry_dealloc_store] at he
  have hm := List.mem_of_mem_filter he
  obtain ⟨e0, he0, rfl⟩ := List.mem_map.mp hm
  exact List.mem_map.mpr ⟨e0, he0, rfl⟩

/-- Entries surviving the make-space loop bear keys of the original
store. -/
theorem pgsp_make_space_go_keys_subset (m : Nat) :
    ∀ (fuel : Nat) (st : pgspState) (e : pgspEntry),
      e ∈ (pgsp_make_space_go fuel m st).store → e.key ∈ storeKeys st.store := by
  intro fuel
  induction fuel with
  | zero =>
      intro st e he
      exact List.mem_map.mpr ⟨e, he, rfl⟩
  | succ f ih =>
      intro st e he
      rw [pgsp_make_space_go] at he
      split at he
      · obtain ⟨e0, he0, hke⟩ := List.mem_map.mp (ih _ e he)
        have hsub := pgsp_entry_dealloc_keys_subset st e0 he0
        rwa [hke] at hsub
      · exact List.mem_map.mpr ⟨e, he, rfl⟩

/-- A key absent from the store stays absent through the make-space
loop. -/
theorem pgsp_make_space_find_none (m : Nat) (st : pgspState)
    (k : pgspHashKey)
    (h : st.store.find? (fun e => decide (e.key = k)) = none) :
    (pgsp_make_space m st).store.find? (fun e => decide (e.key = k)) = none := by
  apply List.find?_eq_none.mpr
  intro x hx
  have hk := pgsp_make_space_go_keys_subset m _ st x hx
  obtain ⟨e0, he0, hke⟩ := List.mem_map.mp hk
  have := List.find?_eq_none.mp h e0 he0
  simp only [decide_eq_true_eq] at this ⊢
  rw [← hke]
  exact this

/-- C6 (amended): each eviction pass records the usage of the middle
element of the decayed, sorted entries as cur_median_usage; but an entry
created afterwards has its initial usage set to the constant
PGSP_USAGE_INIT = 1.0, not to cur_median_usage. -/
theorem C6_median_and_new_usage :
    (∀ st : pgspState, 0 < st.store.length →
      (pgsp_entry_dealloc st).shared.cur_median_usage =
        ((pgsp_sorted_decayed st).getD (st.store.length / 2) defaultEntry).usage) ∧
    (∀ (m : Nat) (k : pgspHashKey) (ctx : pgspDsaContext) (pt : ℚ) (nc : Nat)
        (cc gc : ℚ) (st : pgspState),
      st.store.find? (fun e => decide (e.key = k)) = none →
      ∃ e ∈ (pgsp_entry_alloc m k ctx pt nc cc gc st).store,
        e.key = k ∧ e.usage = PGSP_USAGE_INIT) := by
  constructor
  · exact fun st h => pgsp_entry_dealloc_median st h
  · intro m k ctx pt nc cc gc st hfind
    have hnone := pgsp_make_space_find_none m st k hfind
    simp only [pgsp_entry_alloc, hnone]
    exact ⟨_, List.mem_cons_self _ _, rfl, rfl⟩

/-- Witness for C6 at concrete states: the median recorded over the
five-entry store, and a fresh entry created with usage 1. -/
theorem C6_median_and_new_usage_witness :
    (pgsp_entry_dealloc stFive).shared.cur_median_usage =
      ((pgsp_sorted_decayed stFive).getD (stFive.store.length / 2)
        defaultEntry).usage ∧
    ∃ e ∈ (pgsp_entry_alloc 5 kW ctxW 1 0 1 1 stEmpty).store,
      e.key = kW ∧ e.usage = PGSP_USAGE_INIT := by
  have h := C6_median_and_new_usage
  exact ⟨h.1 stFive (by decide), h.2 5 kW ctxW 1 0 1 1 stEmpty (by rfl)⟩

unseal List.merge List.mergeSort Rat.mul Rat.add Rat.sub Rat.inv in
/-- Counterexample for C6 as stated: with cur_median_usage = 7, a newly
created entry has usage 1, not cur_median_usage. -/
theorem C6_counterexample :
    ∃ e ∈ (pgsp_entry_alloc 5 kW ctxW 1 0 1 1 stMedianSeven).store,
      e.key = kW ∧ e.usage ≠
        (pgsp_entry_alloc 5 kW ctxW 1 0 1 1 stMedianSeven).shared.cur_median_usage := by
  decide

/-- C8: reset(0,0,0) removes every entry, zeroes the global dealloc
counter and sets stats_reset to the current time; a reset with a
non-zero argument removes exactly the entries whose key components match
every non-zero argument. -/
theorem C8_reset (st : pgspState) (now u d q : Nat) :
    ((pg_shared_plans_reset_internal 0 0 0 now st).store = [] ∧
     (pg_shared_plans_reset_internal 0 0 0 now st).shared.dealloc = 0 ∧
     (pg_shared_plans_reset_internal 0 0 0 now st).shared.stats_reset = now) ∧
    ((storeKeys st.store).Nodup → ¬(u = 0 ∧ d = 0 ∧ q = 0) →
      (pg_shared_plans_reset_internal u d q now st).store =
        st.store.filter (fun e => !(pgsp_reset_match u d q e))) := by
  constructor
  · have hcond : ¬((0:Nat) ≠ 0 ∨ (0:Nat) ≠ 0 ∨ (0:Nat) ≠ 0) := by simp
    simp only [pg_shared_plans_reset_internal, if_neg hcond, if_pos rfl]
    refine ⟨?_, rfl, rfl⟩
    show (st.store.foldl pgsp_entry_remove st).store = []
    rw [foldl_remove_store]
    apply List.filter_eq_nil_iff.mpr
    intro x hx
    simp only [decide_eq_true_eq, not_forall]
    exact ⟨x, hx, fun hne => hne rfl⟩
  · intro hnd hne
    have hcond : (u ≠ 0 ∨ d ≠ 0 ∨ q ≠ 0) := by tauto
    simp only [pg_shared_plans_reset_internal, if_pos hcond]
    have hstore :
        ((st.store.filter (pgsp_reset_match u d q)).foldl
          pgsp_entry_remove st).store =
          st.store.filter (fun e => !(pgsp_reset_match u d q e)) := by
      rw [foldl_remove_store]
      apply List.filter_congr
      intro x hx
      cases hm : pgsp_reset_match u d q x with
      | true =>
          simp only [Bool.not_true]
          apply decide_eq_false
          simp only [not_forall]
          exact ⟨x, List.mem_filter.mpr ⟨hx, hm⟩, fun hne => hne rfl⟩
      | false =>
          simp only [Bool.not_false]
          apply decide_eq_true
          intro v hv hkey
          have hvs := List.mem_filter.mp hv
          have hxv : x = v := List.inj_on_of_nodup_map hnd hx hvs.1 hkey
          rw [← hxv] at hvs
          rw [hm] at hvs
          exact absurd hvs.2 (by simp)
    split <;> exact hstore

/-- Witness for C8 part 2: resetting queryid 3 over the five-entry store
removes exactly the entry with queryid 3. -/
theorem C8_reset_witness :
    (pg_shared_plans_reset_internal 0 0 3 7 stFive).store =
      stFive.store.filter (fun e => !(pgsp_reset_match 0 0 3 e)) :=
  (C8_reset stFive 7 0 0 3).2 (by decide) (by decide)

/-- C7 (amended): when a cached plan is chosen and returned (and the
threshold is below PLANCACHE_THRESHOLD, without disable_plan_cache), its
root total cost is reduced by
`diff = 1000 * cpu_operator_cost * (n_rels + 1) * PLANCACHE_THRESHOLD /
(PLANCACHE_THRESHOLD - threshold) + 0.01` where n_rels is the number of
range-table entries of the returned plan; the result is set to 0.001
when it is not positive (a positive result below 0.001 is kept as is). -/
theorem C7_cost_bias :
    (∀ (t : Nat) (cpu : ℚ) (n b : Nat) (cost : ℚ), t < PLANCACHE_THRESHOLD →
      pgsp_adjust_cached_cost t false cpu n b cost =
        (if cost - (1000 * cpu * ((n : ℚ) + 1) * (PLANCACHE_THRESHOLD : ℚ) /
              ((PLANCACHE_THRESHOLD : ℚ) - (t : ℚ)) + 1 / 100) ≤ 0 then
          1 / 1000
         else cost - (1000 * cpu * ((n : ℚ) + 1) * (PLANCACHE_THRESHOLD : ℚ) /
              ((PLANCACHE_THRESHOLD : ℚ) - (t : ℚ)) + 1 / 100))) ∧
    (∀ (g : pgspGucs) (a : pgspPlannerArgs) (st : pgspState) (e : pgspEntry),
      g.pgsp_enabled = true → a.compute_query_id_off = false →
      a.has_bound_params = true → a.queryid ≠ 0 → a.is_utility = false →
      a.walker_rejects = false →
      st.store.find? (fun x => decide (x.key = pgsp_hook_key a)) = some e →
      e.plan ≠ none →
      (pgsp_choose_cache_plan g.pgsp_threshold e).use_cached = true →
      g.pgsp_threshold < PLANCACHE_THRESHOLD →
      (pgsp_planner_hook g a st).2 =
        pgspPlanSource.cached a.cached_plan.plan_id
          (pgsp_adjust_cached_cost g.pgsp_threshold g.pgsp_disable_plancache
            g.cpu_operator_cost a.cached_plan.nb_rtable
            (pgsp_choose_cache_plan g.pgsp_threshold e).entry.bypass
            a.cached_plan.total_cost)) := by
  constructor
  · intro t cpu n b cost ht
    have hcast : ((PLANCACHE_THRESHOLD - t : Nat) : ℚ) =
        (PLANCACHE_THRESHOLD : ℚ) - (t : ℚ) := Nat.cast_sub ht.le
    simp only [pgsp_adjust_cached_cost, if_neg (Nat.not_le.mpr ht)]
    rw [hcast]
    simp
  · intro g a st e hen hoff hbp hqid hut hwr hfind hplan huse hth
    have hnle : ¬ (PLANCACHE_THRESHOLD ≤ g.pgsp_threshold) := Nat.not_le.mpr hth
    simp [pgsp_planner_hook, hfind, hen, hoff, hbp, hut, hwr, hqid, huse,
      hplan, hnle]

/-- Witness for C7 at concrete values: threshold 4, cpu_operator_cost
0.0025, one relation: diff = 25.01 and a cost of 100 becomes 74.99. -/
theorem C7_cost_bias_witness :
    pgsp_adjust_cached_cost 4 false (1 / 400) 1 0 100 =
      (if (100 : ℚ) - (1000 * (1 / 400) * ((1 : ℚ) + 1) * (5 : ℚ) /
            ((5 : ℚ) - (4 : ℚ)) + 1 / 100) ≤ 0 then (1 : ℚ) / 1000
       else 100 - (1000 * (1 / 400) * ((1 : ℚ) + 1) * (5 : ℚ) /
            ((5 : ℚ) - (4 : ℚ)) + 1 / 100)) := by
  have h := C7_cost_bias.1 4 (1 / 400) 1 0 100 (by decide)
  simpa [PLANCACHE_THRESHOLD] using h

unseal Rat.mul Rat.add Rat.sub Rat.inv in
/-- Counterexample for C7 as stated: with cpu_operator_cost 0, the diff
is 0.01 and a cost of 0.0105 becomes 0.0005, strictly below the claimed
lower clamp of 0.001 — the code only replaces non-positive results by
0.001. -/
theorem C7_counterexample :
    pgsp_adjust_cached_cost 4 false 0 0 0 (21 / 2000) = 1 / 2000 ∧
    ¬ ((1 : ℚ) / 1000 ≤ 1 / 2000) := by
  constructor
  · decide
  · decide

/-- C10: a plan request without bound parameters, with a zero queryid,
or carrying a utility statement falls straight through to the host
planner: the result is exactly the host planner output and the whole
shared state (store, reverse index, counters) is unchanged. -/
theorem C10_fallback (g : pgspGucs) (a : pgspPlannerArgs) (st : pgspState)
    (h : a.has_bound_params = false ∨ a.queryid = 0 ∨ a.is_utility = true) :
    pgsp_planner_hook g a st = (st, .host a.custom_plan.plan_id) := by
  unfold pgsp_planner_hook
  rcases h with h | h | h
  · rw [if_pos]
    exact Or.inr (Or.inr (Or.inr (by simp [h])))
  · rw [if_pos]
    exact Or.inr (Or.inl h)
  · by_cases h1 : (¬ g.pgsp_enabled = true ∨ a.queryid = 0 ∨
      a.compute_query_id_off = true ∨ ¬ a.has_bound_params = true)
    · rw [if_pos h1]
    · rw [if_neg h1, if_pos h]

/-- Witness for C10: a utility-statement request over the five-entry
store is returned to the host planner unchanged. -/
theorem C10_fallback_witness :
    pgsp_planner_hook gucsW { argsW with is_utility := true } stFive =
      (stFive, .host argsW.custom_plan.plan_id) :=
  C10_fallback gucsW { argsW with is_utility := true } stFive
    (Or.inr (Or.inr rfl))

/-- Allocating an entry under a fresh key inserts a new entry with that
key and initial usage PGSP_USAGE_INIT. -/
theorem pgsp_entry_alloc_fresh_mem (m : Nat) (k : pgspHashKey)
    (ctx : pgspDsaContext) (pt : ℚ) (nc : Nat) (cc gc : ℚ)
    (st : pgspState)
    (hfind : st.store.find? (fun e => decide (e.key = k)) = none) :
    ∃ e ∈ (pgsp_entry_alloc m k ctx pt nc cc gc st).store,
      e.key = k ∧ e.usage = PGSP_USAGE_INIT := by
  have hnone := pgsp_make_space_find_none m st k hfind
  simp only [pgsp_entry_alloc, hnone]
  exact ⟨_, List.mem_cons_self _ _, rfl, rfl⟩

/-- pgsp_allocate_plan with no dependencies and a successful plan
allocation succeeds, raises nothing and only accounts the plan bytes. -/
theorem pgsp_allocate_plan_trivial (m : Nat) (oracle : pgspAllocOracle)
    (d : Nat) (k : pgspHashKey) (pid plen : Nat) (st : pgspState)
    (hp : oracle.planOk = true) :
    pgsp_allocate_plan m oracle d k pid plen [] [] st =
      { ok := true, elog_error := false,
        ctx := { plan := some pid, len := plen, rels := none, num_rels := 0,
                 rdeps := none, num_rdeps := 0 },
        state := useDsmem plen st } := by
  simp [pgsp_allocate_plan, hp, pgsp_register_rels, pgsp_register_invals,
    LWLockRelease_raises]

/-- C9 (amended): under the caching path (parameterized non-utility
query, computed queryid, cacheable by the walker, no concurrent entry,
dependencies registered and allocations succeeding — here: none needed),
a new entry is created exactly when the measured planning time is at
least min_plan_time (`plantime >= pgsp_min_plantime`: equality caches);
below min_plan_time the state is untouched. -/
theorem C9_entry_creation (g : pgspGucs) (a : pgspPlannerArgs)
    (st : pgspState)
    (hen : g.pgsp_enabled = true) (hoff : a.compute_query_id_off = false)
    (hbp : a.has_bound_params = true) (hqid : a.queryid ≠ 0)
    (hut : a.is_utility = false) (hwr : a.walker_rejects = false)
    (hfind : st.store.find? (fun e => decide (e.key = pgsp_hook_key a)) = none)
    (hplanOk : a.oracle.planOk = true) (hrels : a.rel_oids = [])
    (hitems : a.invalItems = []) :
    (g.pgsp_min_plantime ≤ a.plantime →
      ∃ e ∈ (pgsp_planner_hook g a st).1.store, e.key = pgsp_hook_key a) ∧
    (a.plantime < g.pgsp_min_plantime → (pgsp_planner_hook g a st).1 = st) := by
  have hmiss : pgsp_planner_hook g a st = pgsp_planner_hook_miss g a st := by
    simp [pgsp_planner_hook, hfind, hen, hoff, hbp, hut, hwr, hqid]
  constructor
  · intro hple
    rw [hmiss]
    unfold pgsp_planner_hook_miss
    rw [if_pos hple]
    dsimp only
    unfold pgsp_cache_plan
    rw [hrels, hitems, pgsp_allocate_plan_trivial _ _ _ _ _ _ _ hplanOk]
    dsimp only
    rw [if_pos rfl]
    obtain ⟨e, he, hk, _⟩ := pgsp_entry_alloc_fresh_mem g.pgsp_max
      (pgsp_hook_key a)
      { plan := some a.generic_plan.plan_id, len := a.generic_plan_len,
        rels := none, num_rels := 0, rdeps := none, num_rdeps := 0 }
      a.plantime a.num_const a.custom_plan_cost a.generic_plan_cost
      (useDsmem a.generic_plan_len st)
      (by rw [useDsmem_store]; exact hfind)
    exact ⟨e, he, hk⟩
  · intro hlt
    rw [hmiss]
    unfold pgsp_planner_hook_miss
    rw [if_neg (not_le.mpr hlt)]

/-- Witness for C9: at plantime 10 (= min_plan_time) an entry is
created; at plantime below the threshold nothing changes. -/
theorem C9_entry_creation_witness :
    (∃ e ∈ (pgsp_planner_hook gucsW argsW stEmpty).1.store,
      e.key = pgsp_hook_key argsW) ∧
    (pgsp_planner_hook gucsW { argsW with plantime := 1 } stEmpty).1 =
      stEmpty := by
  constructor
  · exact (C9_entry_creation gucsW argsW stEmpty rfl rfl rfl (by decide) rfl
      rfl rfl rfl rfl rfl).1 (by norm_num [gucsW, argsW])
  · exact (C9_entry_creation gucsW { argsW with plantime := 1 } stEmpty rfl
      rfl rfl (by decide) rfl rfl rfl rfl rfl rfl).2
      (by norm_num [gucsW, argsW])

/-- Counterexample for C9 as stated: the measured planning time equals
min_plan_time (so does not strictly exceed it), yet the request is
cached — the code compares with `>=`, the claim with `>`. -/
theorem C9_counterexample :
    argsW.plantime = gucsW.pgsp_min_plantime ∧
    ∃ e ∈ (pgsp_planner_hook gucsW argsW stEmpty).1.store,
      e.key = pgsp_hook_key argsW := by
  constructor
  · rfl
  · have h := pgsp_entry_alloc_fresh_mem gucsW.pgsp_max (pgsp_hook_key argsW)
      { plan := some argsW.generic_plan.plan_id, len := argsW.generic_plan_len,
        rels := none, num_rels := 0, rdeps := none, num_rdeps := 0 }
      argsW.plantime argsW.num_const argsW.custom_plan_cost
      argsW.generic_plan_cost (useDsmem argsW.generic_plan_len stEmpty) (by rfl)
    obtain ⟨e, he, hk, _⟩ := h
    refine ⟨e, ?_, hk⟩
    have hmiss : pgsp_planner_hook gucsW argsW stEmpty =
        pgsp_planner_hook_miss gucsW argsW stEmpty := by
      simp [pgsp_planner_hook, pgsp_hook_key, gucsW, argsW, stEmpty]
    rw [hmiss]
    unfold pgsp_planner_hook_miss
    rw [if_pos (by norm_num [gucsW, argsW])]
    dsimp only
    unfold pgsp_cache_plan
    rw [show argsW.rel_oids = [] from rfl, show argsW.invalItems = [] from rfl,
      pgsp_allocate_plan_trivial _ _ _ _ _ _ _ rfl]
    exact he

/-- Folding a step function that is neutral on the image of g does
nothing. -/
theorem foldl_map_neutral {α β γ : Type} (f : γ → β → γ) (g : α → β)
    (h : ∀ acc a, f acc (g a) = acc) :
    ∀ (l : List α) (m : γ), (l.map g).foldl f m = m := by
  intro l
  induction l with
  | nil => intro m; rfl
  | cons a t ih =>
      intro m
      rw [List.map_cons, List.foldl_cons, h, ih]

/-- lockersFrom splits over concatenation. -/
theorem lockersFrom_append (oid n : Nat) (l1 l2 : List pgspLockEvent) :
    lockersFrom oid n (l1 ++ l2) =
      lockersFrom oid (lockersFrom oid n l1) l2 :=
  List.foldl_append _ _ _ _

/-- The discard-and-lock events of a lock pass increment the lockers of
an entry once per occurrence of its oid. -/
theorem lockersFrom_discards (oid : Nat) :
    ∀ (oids : List Nat) (n : Nat),
      lockersFrom oid n (oids.map pgspLockEvent.discardAndLock) =
        n + oids.count oid := by
  intro oids
  induction oids with
  | nil => intro n; simp [lockersFrom]
  | cons o t ih =>
      intro n
      simp only [List.map_cons, lockersFrom, List.foldl_cons] at ih ⊢
      by_cases ho : o = oid
      · rw [if_pos ho, ih, List.count_cons]
        simp [ho]
        omega
      · rw [if_neg ho, ih, List.count_cons]
        simp [ho]

/-- The unlock events of a lock pass decrement the lockers of an entry
once per occurrence of its oid. -/
theorem lockersFrom_unlocks (oid : Nat) :
    ∀ (oids : List Nat) (n : Nat),
      lockersFrom oid n (oids.map pgspLockEvent.unlockEntry) =
        n - oids.count oid := by
  intro oids
  induction oids with
  | nil => intro n; simp [lockersFrom]
  | cons o t ih =>
      intro n
      simp only [List.map_cons, lockersFrom, List.foldl_cons] at ih ⊢
      by_cases ho : o = oid
      · rw [if_pos ho, ih, List.count_cons]
        simp [ho]
        omega
      · rw [if_neg ho, ih, List.count_cons]
        simp [ho]

/-- beforeDDL distributes over an append whose first part has no runDDL
event. -/
theorem beforeDDL_append (l1 l2 : List pgspLockEvent)
    (h : ∀ e ∈ l1, e ≠ pgspLockEvent.runDDL) :
    beforeDDL (l1 ++ l2) = l1 ++ beforeDDL l2 := by
  induction l1 with
  | nil => rfl
  | cons a t ih =>
      rw [List.cons_append]
      unfold beforeDDL
      rw [List.takeWhile_cons,
        if_pos (decide_eq_true (h a (List.mem_cons_self _ _)))]
      rw [List.cons_append]
      congr 1
      exact ih (fun e he => h e (List.mem_cons_of_mem _ he))

/-- beforeFirstRelease distributes over an append whose first part has
no release event. -/
theorem beforeFirstRelease_append (l1 l2 : List pgspLockEvent)
    (h : ∀ e ∈ l1, e ≠ pgspLockEvent.releaseLock) :
    beforeFirstRelease (l1 ++ l2) = l1 ++ beforeFirstRelease l2 := by
  induction l1 with
  | nil => rfl
  | cons a t ih =>
      rw [List.cons_append]
      unfold beforeFirstRelease
      rw [List.takeWhile_cons,
        if_pos (decide_eq_true (h a (List.mem_cons_self _ _)))]
      rw [List.cons_append]
      congr 1
      exact ih (fun e he => h e (List.mem_cons_of_mem _ he))

/-- The do-lock phase contains no runDDL event. -/
theorem pgsp_utility_do_lock_trace_no_ddl (oids : List Nat) :
    ∀ e ∈ pgsp_utility_do_lock_trace oids, e ≠ pgspLockEvent.runDDL := by
  intro e he
  unfold pgsp_utility_do_lock_trace at he
  split at he
  · cases he
  · simp only [List.mem_append, List.mem_cons, List.mem_map,
      List.not_mem_nil, or_false] at he
    rcases he with ((rfl | ⟨o, _, rfl⟩) | (rfl | rfl)) | ⟨o, _, rfl⟩ <;> simp

/-- The prefix of the trace executed before the DDL is exactly the
do-lock phase. -/
theorem beforeDDL_lock_trace (oids : List Nat) :
    beforeDDL (pgsp_ProcessUtility_lock_trace oids) =
      pgsp_utility_do_lock_trace oids := by
  unfold pgsp_ProcessUtility_lock_trace
  rw [List.append_assoc, beforeDDL_append _ _ (pgsp_utility_do_lock_trace_no_ddl oids)]
  simp [beforeDDL]

/-- C3 (amended): for a LOCK-class statement the engine acquires the
store lock exclusive, discards the plans and increments their lockers,
releases and reacquires shared, decrements the lockers again, and only
then runs the DDL while still holding the shared lock, forcing read_only
and releasing it afterwards.  Each affected entry has lockers = 1 only
during the discard phase (up to the first lock release); when the DDL
runs, lockers is already back to 0 and the shared store lock — which
blocks any plan insertion — is held; at the end the lock is released and
lockers is 0. -/
theorem C3_lock_sequence (oids : List Nat) (oid : Nat) (hnd : oids.Nodup)
    (hmem : oid ∈ oids) :
    pgsp_ProcessUtility_lock_trace oids =
      [pgspLockEvent.acquireExclusive] ++
      oids.map pgspLockEvent.discardAndLock ++
      [pgspLockEvent.releaseLock, pgspLockEvent.acquireShared] ++
      oids.map pgspLockEvent.unlockEntry ++
      [pgspLockEvent.runDDL, pgspLockEvent.setReadOnly,
        pgspLockEvent.releaseLock] ∧
    lockersAfter oid (beforeFirstRelease (pgsp_ProcessUtility_lock_trace oids)) = 1 ∧
    lockersAfter oid (beforeDDL (pgsp_ProcessUtility_lock_trace oids)) = 0 ∧
    lockModeAfter (beforeDDL (pgsp_ProcessUtility_lock_trace oids)) =
      some false ∧
    lockersAfter oid (pgsp_ProcessUtility_lock_trace oids) = 0 ∧
    lockModeAfter (pgsp_ProcessUtility_lock_trace oids) = none := by
  have hne : oids ≠ [] := List.ne_nil_of_mem hmem
  have hcount : oids.count oid = 1 := List.count_eq_one_of_mem hnd hmem
  have hdo : pgsp_utility_do_lock_trace oids =
      [pgspLockEvent.acquireExclusive] ++
      oids.map pgspLockEvent.discardAndLock ++
      [pgspLockEvent.releaseLock, pgspLockEvent.acquireShared] ++
      oids.map pgspLockEvent.unlockEntry := by
    unfold pgsp_utility_do_lock_trace
    rw [if_neg hne]
  have hlockdo : lockersAfter oid (pgsp_utility_do_lock_trace oids) = 0 := by
    rw [hdo]
    unfold lockersAfter
    rw [lockersFrom_append, lockersFrom_append, lockersFrom_append,
      lockersFrom_discards, lockersFrom_unlocks, hcount]
    simp [lockersFrom]
  refine ⟨?_, ?_, ?_, ?_, ?_, ?_⟩
  · unfold pgsp_ProcessUtility_lock_trace
    rw [hdo, if_neg hne]
    simp
  · have hsplit : pgsp_ProcessUtility_lock_trace oids =
        ([pgspLockEvent.acquireExclusive] ++
          oids.map pgspLockEvent.discardAndLock) ++
        (pgspLockEvent.releaseLock :: (pgspLockEvent.acquireShared ::
          (oids.map pgspLockEvent.unlockEntry ++
            (pgspLockEvent.runDDL ::
              [pgspLockEvent.setReadOnly, pgspLockEvent.releaseLock])))) := by
      unfold pgsp_ProcessUtility_lock_trace
      rw [hdo, if_neg hne]
      simp
    rw [hsplit, beforeFirstRelease_append]
    · have hrel : beforeFirstRelease (pgspLockEvent.releaseLock ::
          (pgspLockEvent.acquireShared ::
            (oids.map pgspLockEvent.unlockEntry ++
              (pgspLockEvent.runDDL ::
                [pgspLockEvent.setReadOnly, pgspLockEvent.releaseLock])))) =
          [] := by
        simp [beforeFirstRelease]
      rw [hrel, List.append_nil]
      unfold lockersAfter
      rw [lockersFrom_append, lockersFrom_discards, hcount]
      simp [lockersFrom]
    · intro e he
      rcases List.mem_append.mp he with h1 | h2
      · rcases List.mem_cons.mp h1 with rfl | h
        · simp
        · cases h
      · obtain ⟨o, _, rfl⟩ := List.mem_map.mp h2
        simp
  · rw [beforeDDL_lock_trace]
    exact hlockdo
  · rw [beforeDDL_lock_trace, hdo]
    unfold lockModeAfter
    rw [List.foldl_append, List.foldl_append, List.foldl_append]
    rw [foldl_map_neutral _ _ (fun acc a => rfl)]
    rw [foldl_map_neutral _ _ (fun acc a => rfl)]
    rfl
  · unfold pgsp_ProcessUtility_lock_trace
    rw [if_neg hne]
    unfold lockersAfter
    rw [lockersFrom_append, lockersFrom_append]
    show lockersFrom oid (lockersAfter oid (pgsp_utility_do_lock_trace oids)) _ = 0
    rw [hlockdo]
    rfl
  · unfold pgsp_ProcessUtility_lock_trace
    rw [if_neg hne]
    unfold lockModeAfter
    rw [List.foldl_append, List.foldl_append]
    rfl

/-- Witness for C3 at a single affected oid: lockers is 1 during the
discard phase, and 0 — under the shared lock — when the DDL runs. -/
theorem C3_lock_sequence_witness :
    lockersAfter 42 (beforeFirstRelease (pgsp_ProcessUtility_lock_trace [42])) = 1 ∧
    lockersAfter 42 (beforeDDL (pgsp_ProcessUtility_lock_trace [42])) = 0 ∧
    lockModeAfter (beforeDDL (pgsp_ProcessUtility_lock_trace [42])) =
      some false := by
  have h := C3_lock_sequence [42] 42 (by decide) (by decide)
  exact ⟨h.2.1, h.2.2.1, h.2.2.2.1⟩

/-- Counterexample for C3 as stated: in the implemented trace the
lockers of the affected entry are decremented before the DDL runs
(lockers = 0 during the DDL), whereas the claimed sequence — unlock
after the DDL under a reacquired exclusive lock — would keep lockers = 1
throughout the DDL; the traces differ. -/
theorem C3_counterexample :
    lockersAfter 42 (beforeDDL (pgsp_ProcessUtility_lock_trace [42])) = 0 ∧
    lockersAfter 42 (beforeDDL (specC3_lock_trace [42])) = 1 ∧
    pgsp_ProcessUtility_lock_trace [42] ≠ specC3_lock_trace [42] := by
  decide

/-- A successful lookup exposes a member of the association list. -/
theorem rdepend_find_mem :
    ∀ (rd : List (pgspRdependKey × List pgspHashKey)) (q : pgspRdependKey)
      (L : List pgspHashKey), rdepend_find rd q = some L → (q, L) ∈ rd := by
  intro rd
  induction rd with
  | nil => intro q L h; cases h
  | cons p t ih =>
      obtain ⟨pk, pv⟩ := p
      intro q L h
      rw [rdepend_find] at h
      by_cases hpq : pk = q
      · rw [if_pos hpq] at h
        cases h
        subst hpq
        exact List.mem_cons_self _ _
      · rw [if_neg hpq] at h
        exact List.mem_cons_of_mem _ (ih q L h)

/-- Setting a key replaces the value seen by a lookup of that key, when
the key is present. -/
theorem rdepend_set_find_self :
    ∀ (rd : List (pgspRdependKey × List pgspHashKey)) (q : pgspRdependKey)
      (L v : List pgspHashKey), rdepend_find rd q = some L →
      rdepend_find (rdepend_set rd q v) q = some v := by
  intro rd
  induction rd with
  | nil => intro q L v h; cases h
  | cons p t ih =>
      obtain ⟨pk, pv⟩ := p
      intro q L v h
      rw [rdepend_find] at h
      rw [rdepend_set]
      by_cases hpq : pk = q
      · rw [if_pos hpq, rdepend_find, if_pos hpq]
      · rw [if_neg hpq] at h ⊢
        rw [rdepend_find, if_neg hpq]
        exact ih q L v h

/-- Setting a key does not change lookups of other keys. -/
theorem rdepend_set_find_ne :
    ∀ (rd : List (pgspRdependKey × List pgspHashKey)) (q p : pgspRdependKey)
      (v : List pgspHashKey), p ≠ q →
      rdepend_find (rdepend_set rd q v) p = rdepend_find rd p := by
  intro rd
  induction rd with
  | nil => intro q p v _; rfl
  | cons hd t ih =>
      obtain ⟨hk, hv⟩ := hd
      intro q p v hne
      rw [rdepend_set]
      by_cases hq : hk = q
      · rw [if_pos hq, rdepend_find, rdepend_find, if_neg, if_neg]
        · rw [hq]; exact fun h => hne h.symm
        · rw [hq]; exact fun h => hne h.symm
      · rw [if_neg hq, rdepend_find, rdepend_find]
        by_cases hp : hk = p
        · rw [if_pos hp, if_pos hp]
        · rw [if_neg hp, if_neg hp]
          exact ih q p v hne

/-- Setting a key to the value it already holds is the identity. -/
theorem rdepend_set_self :
    ∀ (rd : List (pgspRdependKey × List pgspHashKey)) (q : pgspRdependKey)
      (v : List pgspHashKey), rdepend_find rd q = some v →
      rdepend_set rd q v = rd := by
  intro rd
  induction rd with
  | nil => intro q v h; rfl
  | cons p t ih =>
      obtain ⟨pk, pv⟩ := p
      intro q v h
      rw [rdepend_find] at h
      rw [rdepend_set]
      by_cases hpq : pk = q
      · rw [if_pos hpq] at h ⊢
        cases h
        rfl
      · rw [if_neg hpq] at h ⊢
        rw [ih q v h]

/-- Removing a key does not change lookups of other keys. -/
theorem rdepend_remove_find_ne :
    ∀ (rd : List (pgspRdependKey × List pgspHashKey)) (q p : pgspRdependKey),
      p ≠ q → rdepend_find (rdepend_remove rd q) p = rdepend_find rd p := by
  intro rd
  induction rd with
  | nil => intro q p _; rfl
  | cons hd t ih =>
      obtain ⟨hk, hv⟩ := hd
      intro q p hne
      rw [rdepend_remove]
      by_cases hq : hk = q
      · rw [if_pos hq, rdepend_find, if_neg]
        rw [hq]; exact fun h => hne h.symm
      · rw [if_neg hq, rdepend_find, rdepend_find]
        by_cases hp : hk = p
        · rw [if_pos hp, if_pos hp]
        · rw [if_neg hp, if_neg hp]
          exact ih q p hne

/-- Removing and setting distinct keys commute. -/
theorem rdepend_set_remove_comm :
    ∀ (rd : List (pgspRdependKey × List pgspHashKey))
      (q1 q2 : pgspRdependKey) (v : List pgspHashKey), q1 ≠ q2 →
      rdepend_remove (rdepend_set rd q1 v) q2 =
        rdepend_set (rdepend_remove rd q2) q1 v := by
  intro rd
  induction rd with
  | nil => intro q1 q2 v _; rfl
  | cons hd t ih =>
      obtain ⟨hk, hv⟩ := hd
      intro q1 q2 v hne
      by_cases h1 : hk = q1
      · subst h1
        simp [rdepend_set, rdepend_remove, hne]
      · by_cases h2 : hk = q2
        · subst h2
          simp [rdepend_set, rdepend_remove, h1]
        · simp [rdepend_set, rdepend_remove, h1, h2, ih q1 q2 v hne]

/-- Setting the same key twice keeps the last value. -/
theorem rdepend_set_set :
    ∀ (rd : List (pgspRdependKey × List pgspHashKey)) (q : pgspRdependKey)
      (v w : List pgspHashKey),
      rdepend_set (rdepend_set rd q v) q w = rdepend_set rd q w := by
  intro rd
  induction rd with
  | nil => intro q v w; rfl
  | cons hd t ih =>
      obtain ⟨hk, hv⟩ := hd
      intro q v w
      by_cases h : hk = q
      · subst h
        simp [rdepend_set]
      · simp [rdepend_set, h, ih q v w]

/-- Setting distinct keys commutes. -/
theorem rdepend_set_set_comm :
    ∀ (rd : List (pgspRdependKey × List pgspHashKey))
      (q1 q2 : pgspRdependKey) (v w : List pgspHashKey), q1 ≠ q2 →
      rdepend_set (rdepend_set rd q1 v) q2 w =
        rdepend_set (rdepend_set rd q2 w) q1 v := by
  intro rd
  induction rd with
  | nil => intro q1 q2 v w _; rfl
  | cons hd t ih =>
      obtain ⟨hk, hv⟩ := hd
      intro q1 q2 v w hne
      by_cases h1 : hk = q1
      · subst h1
        have hne2 : hk ≠ q2 := hne
        have hne3 : ¬ (hk = q2) := hne2
        simp [rdepend_set, hne3]
      · by_cases h2 : hk = q2
        · subst h2
          simp [rdepend_set, h1]
        · simp [rdepend_set, h1, h2, ih q1 q2 v w hne]

/-- Exhaustive case analysis of a registration. -/
theorem register_cases (m d c o : Nat) (k : pgspHashKey) (st : pgspState) :
    (rdepend_find st.rdepend { dbid := d, classid := c, oid := o } = none ∧
       (pgsp_entry_register_rdepend m d c o k st).1 = true ∧
       (pgsp_entry_register_rdepend m d c o k st).2 =
         { st with rdepend := ({ dbid := d, classid := c, oid := o }, [k]) :: st.rdepend, shared := { st.shared with rdepend_num := st.shared.rdepend_num + 1 } }) ∨
    (∃ L, rdepend_find st.rdepend { dbid := d, classid := c, oid := o } =
        some L ∧ k ∈ L ∧
       (pgsp_entry_register_rdepend m d c o k st).1 = true ∧
       (pgsp_entry_register_rdepend m d c o k st).2 = st) ∨
    (∃ L, rdepend_find st.rdepend { dbid := d, classid := c, oid := o } =
        some L ∧ k ∉ L ∧ m ≤ L.length ∧
       (pgsp_entry_register_rdepend m d c o k st).1 = false ∧
       (pgsp_entry_register_rdepend m d c o k st).2 = st) ∨
    (∃ L, rdepend_find st.rdepend { dbid := d, classid := c, oid := o } =
        some L ∧ k ∉ L ∧ L.length < m ∧
       (pgsp_entry_register_rdepend m d c o k st).1 = true ∧
       (pgsp_entry_register_rdepend m d c o k st).2 =
         { st with rdepend := rdepend_set st.rdepend { dbid := d, classid := c, oid := o } (L ++ [k]) }) := by
  simp only [pgsp_entry_register_rdepend]
  rcases hf : rdepend_find st.rdepend { dbid := d, classid := c, oid := o }
    with _ | L
  · exact Or.inl ⟨rfl, rfl, rfl⟩
  · by_cases hk : k ∈ L
    · refine Or.inr (Or.inl ⟨L, rfl, hk, ?_, ?_⟩) <;> simp [hk]
    · by_cases hlen : m ≤ L.length
      · refine Or.inr (Or.inr (Or.inl ⟨L, rfl, hk, hlen, ?_, ?_⟩)) <;>
          simp [hk, hlen]
      · refine Or.inr (Or.inr (Or.inr ⟨L, rfl, hk, Nat.lt_of_not_le hlen,
          ?_, ?_⟩)) <;> simp [hk, hlen]

/-- Exhaustive case analysis of an unregistration. -/
theorem unregister_cases (d c o : Nat) (k : pgspHashKey) (st : pgspState) :
    (rdepend_find st.rdepend { dbid := d, classid := c, oid := o } = none ∧
       pgsp_entry_unregister_rdepend d c o k st = st) ∨
    (∃ L, rdepend_find st.rdepend { dbid := d, classid := c, oid := o } =
        some L ∧ L.erase k = [] ∧
       pgsp_entry_unregister_rdepend d c o k st =
         { st with rdepend := rdepend_remove st.rdepend { dbid := d, classid := c, oid := o }, shared := { st.shared with rdepend_num := st.shared.rdepend_num - 1 } }) ∨
    (∃ L, rdepend_find st.rdepend { dbid := d, classid := c, oid := o } =
        some L ∧ L.erase k ≠ [] ∧
       pgsp_entry_unregister_rdepend d c o k st =
         { st with rdepend := rdepend_set st.rdepend { dbid := d, classid := c, oid := o } (L.erase k) }) := by
  simp only [pgsp_entry_unregister_rdepend]
  rcases hf : rdepend_find st.rdepend { dbid := d, classid := c, oid := o }
    with _ | L
  · exact Or.inl ⟨rfl, rfl⟩
  · by_cases he : L.erase k = []
    · refine Or.inr (Or.inl ⟨L, rfl, he, ?_⟩)
      simp [he]
    · refine Or.inr (Or.inr ⟨L, rfl, he, ?_⟩)
      simp [he]

/-- Registering under one key does not change lookups of other keys. -/
theorem register_find_ne (m d c o : Nat) (k : pgspHashKey) (st : pgspState)
    (p : pgspRdependKey) (hp : p ≠ { dbid := d, classid := c, oid := o }) :
    rdepend_find (pgsp_entry_register_rdepend m d c o k st).2.rdepend p =
      rdepend_find st.rdepend p := by
  rcases register_cases m d c o k st with
    ⟨_, _, h2⟩ | ⟨L, _, _, _, h2⟩ | ⟨L, _, _, _, _, h2⟩ | ⟨L, _, _, _, _, h2⟩ <;>
    rw [h2]
  · rw [rdepend_find, if_neg (fun h => hp h.symm)]
  · exact rdepend_set_find_ne _ _ _ _ hp

/-- Unregistering under one key does not change lookups of other keys. -/
theorem unregister_find_ne (d c o : Nat) (k : pgspHashKey) (st : pgspState)
    (p : pgspRdependKey) (hp : p ≠ { dbid := d, classid := c, oid := o }) :
    rdepend_find (pgsp_entry_unregister_rdepend d c o k st).rdepend p =
      rdepend_find st.rdepend p := by
  rcases unregister_cases d c o k st with
    ⟨_, h2⟩ | ⟨L, _, _, h2⟩ | ⟨L, _, _, h2⟩ <;> rw [h2]
  · exact rdepend_remove_find_ne _ _ _ hp
  · exact rdepend_set_find_ne _ _ _ _ hp


/-- The outcome of a registration depends only on the reverse index. -/
theorem register_congr (m d c o : Nat) (k : pgspHashKey) (s t : pgspState)
    (h : s.rdepend = t.rdepend) :
    (pgsp_entry_register_rdepend m d c o k s).1 =
      (pgsp_entry_register_rdepend m d c o k t).1 ∧
    (pgsp_entry_register_rdepend m d c o k s).2.rdepend =
      (pgsp_entry_register_rdepend m d c o k t).2.rdepend := by
  rcases hf : rdepend_find s.rdepend { dbid := d, classid := c, oid := o }
    with _ | L
  all_goals
    have hf2 : rdepend_find t.rdepend { dbid := d, classid := c, oid := o } =
        rdepend_find s.rdepend { dbid := d, classid := c, oid := o } := by
      rw [h]
  · rw [hf] at hf2
    constructor <;> simp [pgsp_entry_register_rdepend, hf, hf2, h]
  · rw [hf] at hf2
    by_cases hk : k ∈ L
    · constructor <;> simp [pgsp_entry_register_rdepend, hf, hf2, hk, h]
    · by_cases hm : m ≤ L.length
      · constructor <;>
          simp [pgsp_entry_register_rdepend, hf, hf2, hk, hm, h]
      · constructor <;>
          simp [pgsp_entry_register_rdepend, hf, hf2, hk, hm, h]

/-- The reverse index after an unregistration depends only on the
reverse index before it. -/
theorem unregister_congr (d c o : Nat) (k : pgspHashKey) (s t : pgspState)
    (h : s.rdepend = t.rdepend) :
    (pgsp_entry_unregister_rdepend d c o k s).rdepend =
      (pgsp_entry_unregister_rdepend d c o k t).rdepend := by
  rcases hf : rdepend_find s.rdepend { dbid := d, classid := c, oid := o }
    with _ | L
  all_goals
    have hf2 : rdepend_find t.rdepend { dbid := d, classid := c, oid := o } =
        rdepend_find s.rdepend { dbid := d, classid := c, oid := o } := by
      rw [h]
  · rw [hf] at hf2
    simp [pgsp_entry_unregister_rdepend, hf, hf2, h]
  · rw [hf] at hf2
    by_cases he : L.erase k = []
    · simp [pgsp_entry_unregister_rdepend, hf, hf2, he, h]
    · simp [pgsp_entry_unregister_rdepend, hf, hf2, he, h]

/-- Unregistering a fingerprint that is not registered under the key is
a no-op. -/
theorem unregister_noop (d c o : Nat) (k : pgspHashKey) (st : pgspState)
    (hclean : rkeyClean k st.rdepend { dbid := d, classid := c, oid := o }) :
    pgsp_entry_unregister_rdepend d c o k st = st := by
  rcases unregister_cases d c o k st with
    ⟨_, h2⟩ | ⟨L, hf, he, h2⟩ | ⟨L, hf, he, h2⟩
  · exact h2
  · unfold rkeyClean at hclean
    rw [hf] at hclean
    rw [List.erase_of_not_mem hclean.1] at he
    exact absurd he hclean.2
  · unfold rkeyClean at hclean
    rw [hf] at hclean
    rw [h2, List.erase_of_not_mem hclean.1, rdepend_set_self _ _ _ hf]

/-- A successful registration of a fingerprint clean for the key is
undone exactly by the corresponding unregistration. -/
theorem register_unregister_cancel (m d c o : Nat) (k : pgspHashKey)
    (st : pgspState)
    (hclean : rkeyClean k st.rdepend { dbid := d, classid := c, oid := o })
    (hok : (pgsp_entry_register_rdepend m d c o k st).1 = true) :
    pgsp_entry_unregister_rdepend d c o k
      (pgsp_entry_register_rdepend m d c o k st).2 = st := by
  unfold rkeyClean at hclean
  rcases register_cases m d c o k st with
    ⟨hf, _, h2⟩ | ⟨L, hf, hk, _, h2⟩ | ⟨L, hf, hk, hlen, hfail, h2⟩ |
    ⟨L, hf, hk, hlen, _, h2⟩
  · rw [h2]
    simp [pgsp_entry_unregister_rdepend, rdepend_find, rdepend_remove]
  · rw [hf] at hclean
    exact absurd hk hclean.1
  · rw [hfail] at hok
    cases hok
  · rw [hf] at hclean
    rw [h2]
    have herase : (L ++ [k]).erase k = L := by
      rw [List.erase_append_right _ hclean.1]
      simp
    have hfind : rdepend_find (rdepend_set st.rdepend
        { dbid := d, classid := c, oid := o } (L ++ [k]))
        { dbid := d, classid := c, oid := o } = some (L ++ [k]) :=
      rdepend_set_find_self _ _ _ _ hf
    simp only [pgsp_entry_unregister_rdepend, hfind]
    rw [herase, if_neg hclean.2, rdepend_set_set,
      rdepend_set_self _ _ _ hf]

/-- Unregistration at an absent key is the identity. -/
theorem unregister_eq_none (d c o : Nat) (k : pgspHashKey) (st : pgspState)
    (hf : rdepend_find st.rdepend { dbid := d, classid := c, oid := o } =
      none) : pgsp_entry_unregister_rdepend d c o k st = st := by
  simp [pgsp_entry_unregister_rdepend, hf]

/-- Unregistration that empties the value array drops the key and
decrements the counter. -/
theorem unregister_eq_remove (d c o : Nat) (k : pgspHashKey) (st : pgspState)
    (L : List pgspHashKey)
    (hf : rdepend_find st.rdepend { dbid := d, classid := c, oid := o } =
      some L) (he : L.erase k = []) :
    pgsp_entry_unregister_rdepend d c o k st =
      { st with
         rdepend := rdepend_remove st.rdepend
           { dbid := d, classid := c, oid := o },
         shared := { st.shared with
                      rdepend_num := st.shared.rdepend_num - 1 } } := by
  simp [pgsp_entry_unregister_rdepend, hf, he]

/-- Unregistration that leaves the value array non-empty stores the
erased array back. -/
theorem unregister_eq_set (d c o : Nat) (k : pgspHashKey) (st : pgspState)
    (L : List pgspHashKey)
    (hf : rdepend_find st.rdepend { dbid := d, classid := c, oid := o } =
      some L) (he : L.erase k ≠ []) :
    pgsp_entry_unregister_rdepend d c o k st =
      { st with
         rdepend := rdepend_set st.rdepend
           { dbid := d, classid := c, oid := o } (L.erase k) } := by
  simp [pgsp_entry_unregister_rdepend, hf, he]

/-- Removing distinct keys commutes. -/
theorem rdepend_remove_remove_comm :
    ∀ (rd : List (pgspRdependKey × List pgspHashKey))
      (q1 q2 : pgspRdependKey), q1 ≠ q2 →
      rdepend_remove (rdepend_remove rd q1) q2 =
        rdepend_remove (rdepend_remove rd q2) q1 := by
  intro rd
  induction rd with
  | nil => intro q1 q2 _; rfl
  | cons hd t ih =>
      obtain ⟨hk, hv⟩ := hd
      intro q1 q2 hne
      by_cases h1 : hk = q1
      · subst h1
        have hne2 : ¬ (hk = q2) := hne
        simp [rdepend_remove, hne2]
      · by_cases h2 : hk = q2
        · subst h2
          simp [rdepend_remove, h1]
        · simp [rdepend_remove, h1, h2, ih q1 q2 hne]

/-- A registration that reports failure leaves the state untouched. -/
theorem register_fail_eq (m d c o : Nat) (k : pgspHashKey) (st : pgspState)
    (hfail : (pgsp_entry_register_rdepend m d c o k st).1 = false) :
    (pgsp_entry_register_rdepend m d c o k st).2 = st := by
  rcases register_cases m d c o k st with
    ⟨_, h1, _⟩ | ⟨L, _, _, h1, h2⟩ | ⟨L, _, _, _, _, h2⟩ | ⟨L, _, _, _, h1, _⟩
  · rw [h1] at hfail; cases hfail
  · exact h2
  · exact h2
  · rw [h1] at hfail; cases hfail

/-- Cleanliness of a fingerprint for a key depends only on the lookup of
that key. -/
theorem rkeyClean_of_find_eq (k : pgspHashKey)
    (r1 r2 : List (pgspRdependKey × List pgspHashKey)) (q : pgspRdependKey)
    (hf : rdepend_find r1 q = rdepend_find r2 q)
    (h : rkeyClean k r2 q) : rkeyClean k r1 q := by
  unfold rkeyClean at h ⊢
  rw [hf]
  exact h

/-- A fingerprint fresh for a reverse index whose arrays are all
non-empty is clean for every key. -/
theorem fresh_clean (k : pgspHashKey)
    (rd : List (pgspRdependKey × List pgspHashKey))
    (hfresh : keyFresh k rd) (hne : rdependNonempty rd) :
    ∀ q, rkeyClean k rd q := by
  intro q
  unfold rkeyClean
  rcases hf : rdepend_find rd q with _ | L
  · trivial
  · have hmem := rdepend_find_mem rd q L hf
    exact ⟨hfresh _ hmem, hne _ hmem⟩

/-- Unregistrations at distinct keys commute. -/
theorem unregister_unregister_comm (d1 c1 o1 d2 c2 o2 : Nat)
    (k1 k2 : pgspHashKey) (st : pgspState)
    (hne : ({ dbid := d1, classid := c1, oid := o1 } : pgspRdependKey) ≠
      { dbid := d2, classid := c2, oid := o2 }) :
    pgsp_entry_unregister_rdepend d1 c1 o1 k1
      (pgsp_entry_unregister_rdepend d2 c2 o2 k2 st) =
    pgsp_entry_unregister_rdepend d2 c2 o2 k2
      (pgsp_entry_unregister_rdepend d1 c1 o1 k1 st) := by
  have hne' : ({ dbid := d2, classid := c2, oid := o2 } : pgspRdependKey) ≠
      { dbid := d1, classid := c1, oid := o1 } := fun h => hne h.symm
  have h12 := unregister_find_ne d2 c2 o2 k2 st
    { dbid := d1, classid := c1, oid := o1 } hne
  have h21 := unregister_find_ne d1 c1 o1 k1 st
    { dbid := d2, classid := c2, oid := o2 } hne'
  rcases unregister_cases d2 c2 o2 k2 st with
    ⟨hf2, e2⟩ | ⟨L2, hf2, he2, e2⟩ | ⟨L2, hf2, he2, e2⟩ <;>
    rcases unregister_cases d1 c1 o1 k1 st with
      ⟨hf1, e1⟩ | ⟨L1, hf1, he1, e1⟩ | ⟨L1, hf1, he1, e1⟩ <;>
    rw [hf1] at h12 <;> rw [hf2] at h21
  · rw [unregister_eq_none d1 c1 o1 k1 _ h12,
      unregister_eq_none d2 c2 o2 k2 _ h21, e1, e2]
  · rw [unregister_eq_remove d1 c1 o1 k1 _ L1 h12 he1,
      unregister_eq_none d2 c2 o2 k2 _ h21, e1, e2]
  · rw [unregister_eq_set d1 c1 o1 k1 _ L1 h12 he1,
      unregister_eq_none d2 c2 o2 k2 _ h21, e1, e2]
  · rw [unregister_eq_none d1 c1 o1 k1 _ h12,
      unregister_eq_remove d2 c2 o2 k2 _ L2 h21 he2, e1, e2]
  · rw [unregister_eq_remove d1 c1 o1 k1 _ L1 h12 he1,
      unregister_eq_remove d2 c2 o2 k2 _ L2 h21 he2, e1, e2]
    simp [rdepend_remove_remove_comm st.rdepend _ _ hne]
  · rw [unregister_eq_set d1 c1 o1 k1 _ L1 h12 he1,
      unregister_eq_remove d2 c2 o2 k2 _ L2 h21 he2, e1, e2]
    simp [rdepend_set_remove_comm st.rdepend _ _ (L1.erase k1) hne]
  · rw [unregister_eq_none d1 c1 o1 k1 _ h12,
      unregister_eq_set d2 c2 o2 k2 _ L2 h21 he2, e1, e2]
  · rw [unregister_eq_remove d1 c1 o1 k1 _ L1 h12 he1,
      unregister_eq_set d2 c2 o2 k2 _ L2 h21 he2, e1, e2]
    simp [rdepend_set_remove_comm st.rdepend _ _ (L2.erase k2) hne']
  · rw [unregister_eq_set d1 c1 o1 k1 _ L1 h12 he1,
      unregister_eq_set d2 c2 o2 k2 _ L2 h21 he2, e1, e2]
    simp [rdepend_set_set_comm st.rdepend _ _ (L1.erase k1) (L2.erase k2)
      hne]

/-- A pending unregistration commutes with a fold of relation
unregistrations at other oids. -/
theorem foldl_unreg_oids_comm (d : Nat) (k kq : pgspHashKey)
    (d1 c1 o1 : Nat) :
    ∀ (l : List Nat) (st : pgspState),
      (∀ o ∈ l, ({ dbid := d, classid := RELOID, oid := o } :
          pgspRdependKey) ≠ { dbid := d1, classid := c1, oid := o1 }) →
      l.foldl (fun acc oid => pgsp_entry_unregister_rdepend d RELOID oid k acc)
        (pgsp_entry_unregister_rdepend d1 c1 o1 kq st) =
      pgsp_entry_unregister_rdepend d1 c1 o1 kq
        (l.foldl
          (fun acc oid => pgsp_entry_unregister_rdepend d RELOID oid k acc)
          st) := by
  intro l
  induction l with
  | nil => intro st _; rfl
  | cons o rest ih =>
      intro st hl
      rw [List.foldl_cons, List.foldl_cons,
        unregister_unregister_comm d RELOID o d1 c1 o1 k kq st
          (hl o (List.mem_cons_self _ _)),
        ih _ (fun o' ho' => hl o' (List.mem_cons_of_mem _ ho'))]

/-- A pending unregistration commutes with a fold of invalidation-item
unregistrations at other keys. -/
theorem foldl_unreg_items_comm (d : Nat) (k kq : pgspHashKey)
    (d1 c1 o1 : Nat) :
    ∀ (l : List (Nat × Nat)) (st : pgspState),
      (∀ it ∈ l, ({ dbid := d, classid := it.1, oid := it.2 } :
          pgspRdependKey) ≠ { dbid := d1, classid := c1, oid := o1 }) →
      l.foldl (fun acc it => pgsp_entry_unregister_rdepend d it.1 it.2 k acc)
        (pgsp_entry_unregister_rdepend d1 c1 o1 kq st) =
      pgsp_entry_unregister_rdepend d1 c1 o1 kq
        (l.foldl
          (fun acc it => pgsp_entry_unregister_rdepend d it.1 it.2 k acc)
          st) := by
  intro l
  induction l with
  | nil => intro st _; rfl
  | cons it rest ih =>
      intro st hl
      rw [List.foldl_cons, List.foldl_cons,
        unregister_unregister_comm d it.1 it.2 d1 c1 o1 k kq st
          (hl it (List.mem_cons_self _ _)),
        ih _ (fun it' hit' => hl it' (List.mem_cons_of_mem _ hit'))]

/-- The number of completed relation registrations reported on success
is the whole list. -/
theorem register_rels_count (m d : Nat) (k : pgspHashKey) :
    ∀ (oids : List Nat) (st : pgspState),
      (pgsp_register_rels m d k oids st).1 = true →
      (pgsp_register_rels m d k oids st).2.1 = oids.length := by
  intro oids
  induction oids with
  | nil => intro st _; rfl
  | cons o rest ih =>
      intro st h
      rw [pgsp_register_rels] at h ⊢
      by_cases hr : (pgsp_entry_register_rdepend m d RELOID o k st).1
      · rw [if_pos hr] at h ⊢
        dsimp only at h ⊢
        rw [ih _ h, List.length_cons]
      · rw [if_neg hr] at h
        cases h

/-- Relation registration does not change lookups of keys other than
those of the registered oids. -/
theorem register_rels_find_ne (m d : Nat) (k : pgspHashKey) :
    ∀ (oids : List Nat) (st : pgspState) (q : pgspRdependKey),
      (∀ o ∈ oids, q ≠ { dbid := d, classid := RELOID, oid := o }) →
      rdepend_find (pgsp_register_rels m d k oids st).2.2.rdepend q =
        rdepend_find st.rdepend q := by
  intro oids
  induction oids with
  | nil => intro st q _; rfl
  | cons o rest ih =>
      intro st q hq
      rw [pgsp_register_rels]
      by_cases hr : (pgsp_entry_register_rdepend m d RELOID o k st).1
      · rw [if_pos hr]
        dsimp only
        rw [ih _ q (fun o' ho' => hq o' (List.mem_cons_of_mem _ ho')),
          register_find_ne m d RELOID o k st q
            (hq o (List.mem_cons_self _ _))]
      · rw [if_neg hr]
        dsimp only
        exact register_find_ne m d RELOID o k st q
          (hq o (List.mem_cons_self _ _))

/-- The relation-registration loop is exactly undone by unregistering
the completed registrations in order. -/
theorem register_rels_unwind (m d : Nat) (k : pgspHashKey) :
    ∀ (oids : List Nat) (st : pgspState), oids.Nodup →
      (∀ o ∈ oids,
        rkeyClean k st.rdepend { dbid := d, classid := RELOID, oid := o }) →
      ((oids.take (pgsp_register_rels m d k oids st).2.1).foldl
        (fun acc oid => pgsp_entry_unregister_rdepend d RELOID oid k acc)
        (pgsp_register_rels m d k oids st).2.2) = st := by
  intro oids
  induction oids with
  | nil => intro st _ _; rfl
  | cons o rest ih =>
      intro st hnd hclean
      rw [pgsp_register_rels]
      by_cases hr : (pgsp_entry_register_rdepend m d RELOID o k st).1
      · rw [if_pos hr]
        dsimp only
        rw [List.take_succ_cons, List.foldl_cons]
        have hnotmem : o ∉ rest := (List.nodup_cons.mp hnd).1
        have hdisj : ∀ o' ∈ rest.take
            (pgsp_register_rels m d k rest
              (pgsp_entry_register_rdepend m d RELOID o k st).2).2.1,
            ({ dbid := d, classid := RELOID, oid := o' } : pgspRdependKey) ≠
              { dbid := d, classid := RELOID, oid := o } := by
          intro o' ho' h
          simp only [pgspRdependKey.mk.injEq] at h
          exact hnotmem (h.2.2 ▸ List.mem_of_mem_take ho')
        have hclean' : ∀ o' ∈ rest, rkeyClean k
            (pgsp_entry_register_rdepend m d RELOID o k st).2.rdepend
            { dbid := d, classid := RELOID, oid := o' } := by
          intro o' ho'
          have hne'' : ({ dbid := d, classid := RELOID, oid := o' } :
              pgspRdependKey) ≠ { dbid := d, classid := RELOID, oid := o } := by
            intro h
            simp only [pgspRdependKey.mk.injEq] at h
            exact hnotmem (h.2.2 ▸ ho')
          exact rkeyClean_of_find_eq k _ st.rdepend _
            (register_find_ne m d RELOID o k st _ hne'')
            (hclean o' (List.mem_cons_of_mem _ ho'))
        rw [foldl_unreg_oids_comm d k k d RELOID o _ _ hdisj,
          ih _ (List.nodup_cons.mp hnd).2 hclean']
        exact register_unregister_cancel m d RELOID o k st
          (hclean o (List.mem_cons_self _ _)) hr
      · rw [if_neg hr]
        dsimp only
        rw [List.take_zero, List.foldl_nil]
        exact register_fail_eq m d RELOID o k st (Bool.not_eq_true _ ▸ hr)

/-- Invalidation-item registration does not change lookups of keys other
than those of the handled items. -/
theorem register_invals_find_ne (m d : Nat) (k : pgspHashKey) :
    ∀ (items : List (Nat × Nat)) (st : pgspState) (q : pgspRdependKey),
      (∀ it ∈ items, q ≠ { dbid := d, classid := it.1, oid := it.2 }) →
      rdepend_find (pgsp_register_invals m d k items st).2.2.rdepend q =
        rdepend_find st.rdepend q := by
  intro items
  induction items with
  | nil => intro st q _; rfl
  | cons it rest ih =>
      intro st q hq
      rw [pgsp_register_invals]
      by_cases hh : pgsp_item_handled it
      · rw [if_pos hh]
        by_cases hr : (pgsp_entry_register_rdepend m d it.1 it.2 k st).1
        · rw [if_pos hr]
          dsimp only
          rw [ih _ q (fun it' hit' => hq it' (List.mem_cons_of_mem _ hit')),
            register_find_ne m d it.1 it.2 k st q
              (hq it (List.mem_cons_self _ _))]
        · rw [if_neg hr]
          dsimp only
          exact register_find_ne m d it.1 it.2 k st q
            (hq it (List.mem_cons_self _ _))
      · rw [if_neg hh]
        exact ih _ q (fun it' hit' => hq it' (List.mem_cons_of_mem _ hit'))

/-- The invalidation-item registration loop is exactly undone by the
free_invals unwind, which walks one item past the completed
registrations (that extra unregistration is a no-op). -/
theorem register_invals_unwind (m d : Nat) (k : pgspHashKey) :
    ∀ (items : List (Nat × Nat)) (st : pgspState),
      ((items.filter pgsp_item_handled).map
        (fun it => ({ dbid := d, classid := it.1, oid := it.2 } :
          pgspRdependKey))).Nodup →
      (∀ it ∈ items.filter pgsp_item_handled,
        rkeyClean k st.rdepend { dbid := d, classid := it.1, oid := it.2 }) →
      pgsp_unwind_invals d k items
        (pgsp_register_invals m d k items st).2.1.length
        (pgsp_register_invals m d k items st).2.2 = st := by
  intro items
  induction items with
  | nil => intro st _ _; rfl
  | cons it rest ih =>
      intro st hnd hclean
      by_cases hh : pgsp_item_handled it
      · rw [List.filter_cons_of_pos hh] at hnd hclean
        rw [pgsp_register_invals, if_pos hh]
        by_cases hr : (pgsp_entry_register_rdepend m d it.1 it.2 k st).1
        · rw [if_pos hr]
          dsimp only
          have hnd' := hnd
          rw [List.map_cons, List.nodup_cons] at hnd'
          have hdisj : ∀ it' ∈ (rest.filter pgsp_item_handled).take
              ((pgsp_register_invals m d k rest
                (pgsp_entry_register_rdepend m d it.1 it.2 k st).2).2.1.length
                + 1),
              ({ dbid := d, classid := it'.1, oid := it'.2 } :
                pgspRdependKey) ≠
                { dbid := d, classid := it.1, oid := it.2 } := by
            intro it' hit' h
            exact hnd'.1 (h ▸ List.mem_map_of_mem _
              (List.mem_of_mem_take hit'))
          have hclean' : ∀ it' ∈ rest.filter pgsp_item_handled,
              rkeyClean k
                (pgsp_entry_register_rdepend m d it.1 it.2 k st).2.rdepend
                { dbid := d, classid := it'.1, oid := it'.2 } := by
            intro it' hit'
            have hne'' : ({ dbid := d, classid := it'.1, oid := it'.2 } :
                pgspRdependKey) ≠ { dbid := d, classid := it.1, oid := it.2 } :=
              fun h => hnd'.1 (h ▸ List.mem_map_of_mem _ hit')
            exact rkeyClean_of_find_eq k _ st.rdepend _
              (register_find_ne m d it.1 it.2 k st _ hne'')
              (hclean it' (List.mem_cons_of_mem _ hit'))
          have hihm := ih (pgsp_entry_register_rdepend m d it.1 it.2 k st).2
            hnd'.2 hclean'
          rw [pgsp_unwind_invals] at hihm ⊢
          rw [List.filter_cons_of_pos hh, List.length_cons,
            List.take_succ_cons, List.foldl_cons,
            foldl_unreg_items_comm d k k d it.1 it.2 _ _ hdisj, hihm]
          exact register_unregister_cancel m d it.1 it.2 k st
            (hclean it (List.mem_cons_self _ _)) hr
        · rw [if_neg hr]
          dsimp only
          rw [pgsp_unwind_invals, List.filter_cons_of_pos hh,
            List.length_nil, List.take_succ_cons, List.take_zero,
            List.foldl_cons, List.foldl_nil,
            register_fail_eq m d it.1 it.2 k st (Bool.not_eq_true _ ▸ hr)]
          exact unregister_noop d it.1 it.2 k st
            (hclean it (List.mem_cons_self _ _))
      · rw [List.filter_cons_of_neg hh] at hnd hclean
        rw [pgsp_register_invals, if_neg hh]
        have hihm := ih st hnd hclean
        rw [pgsp_unwind_invals] at hihm ⊢
        rw [List.filter_cons_of_neg hh]
        exact hihm

/-- Freeing exactly the bytes just accounted restores the accounting. -/
theorem freeDsmem_useDsmem (n : Nat) (st : pgspState) :
    freeDsmem n (useDsmem n st) = st := by
  simp [freeDsmem, useDsmem]

/-- The oid list built by list_append_unique_oid holds no duplicates. -/
theorem foldl_append_unique_nodup :
    ∀ (l acc : List Nat), acc.Nodup →
      (l.foldl list_append_unique_oid acc).Nodup := by
  intro l
  induction l with
  | nil => intro acc h; exact h
  | cons o rest ih =>
      intro acc h
      rw [List.foldl_cons]
      apply ih
      rw [list_append_unique_oid]
      by_cases ho : o ∈ acc
      · rw [if_pos ho]
        exact h
      · rw [if_neg ho]
        rw [List.nodup_append]
        exact ⟨h, List.nodup_singleton o, fun a ha hb => by
          rw [List.mem_singleton] at hb
          subst hb
          exact ho ha⟩

/-- A handled invalidation item never carries the relation classid. -/
theorem handled_classid_ne_reloid (it : Nat × Nat)
    (hh : pgsp_item_handled it = true) : it.1 ≠ RELOID := by
  simp only [pgsp_item_handled, Bool.or_eq_true, decide_eq_true_eq] at hh
  rcases hh with h | h <;> rw [h] <;> simp [TYPEOID, PROCOID, RELOID]

/-- Any failing run of pgsp_allocate_plan restores the whole state:
store, reverse-dependency index, and every global counter, including
alloced_size. -/
theorem pgsp_allocate_plan_fail_restore (m : Nat) (oracle : pgspAllocOracle)
    (d : Nat) (k : pgspHashKey) (pid plen : Nat) (raw : List Nat)
    (items : List (Nat × Nat)) (st : pgspState)
    (hfresh : keyFresh k st.rdepend)
    (hne : rdependNonempty st.rdepend)
    (hnodup : ((items.filter pgsp_item_handled).map
      (fun it => rkInval d it)).Nodup)
    (hfail : (pgsp_allocate_plan m oracle d k pid plen raw items st).ok =
      false) :
    (pgsp_allocate_plan m oracle d k pid plen raw items st).state = st := by
  have hclean0 : ∀ q, rkeyClean k st.rdepend q :=
    fresh_clean k st.rdepend hfresh hne
  simp only [pgsp_allocate_plan] at hfail ⊢
  by_cases hp : oracle.planOk = true
  · rw [if_neg (not_not_intro hp)] at hfail ⊢
    set oids := raw.foldl list_append_unique_oid [] with hoids
    have hnodupO : oids.Nodup := by
      rw [hoids]
      exact foldl_append_unique_nodup raw [] List.nodup_nil
    by_cases hB : oids ≠ [] ∧ ¬ oracle.relsOk = true
    · rw [if_pos hB]
      exact freeDsmem_useDsmem plen st
    · rw [if_neg hB] at hfail ⊢
      set stR := if oids ≠ [] then
          useDsmem (oids.length * SIZEOF_OID) (useDsmem plen st)
        else useDsmem plen st with hstR
      have hstR_rd : stR.rdepend = st.rdepend := by
        rw [hstR]
        split <;> rfl
      have hcleanR : ∀ q, rkeyClean k stR.rdepend q := fun q =>
        rkeyClean_of_find_eq k stR.rdepend st.rdepend q
          (by rw [hstR_rd]) (hclean0 q)
      set regR := pgsp_register_rels m d k oids stR with hregR
      by_cases hC : regR.1 = true
      · rw [if_neg (not_not_intro hC)] at hfail ⊢
        set stI0 := regR.2.2 with hstI0
        set regI := pgsp_register_invals m d k items stI0 with hregI
        have hcount : regR.2.1 = oids.length := by
          rw [hregR] at hC ⊢
          exact register_rels_count m d k oids stR hC
        have hinv_keys : ∀ it ∈ items.filter pgsp_item_handled,
            ∀ o ∈ oids,
            ({ dbid := d, classid := it.1, oid := it.2 } : pgspRdependKey) ≠
              { dbid := d, classid := RELOID, oid := o } := by
          intro it hit o _ h
          have hh : pgsp_item_handled it = true := List.of_mem_filter hit
          simp only [pgspRdependKey.mk.injEq] at h
          exact handled_classid_ne_reloid it hh h.2.1
        have hstI0_find : ∀ it ∈ items.filter pgsp_item_handled,
            rdepend_find stI0.rdepend
              { dbid := d, classid := it.1, oid := it.2 } =
            rdepend_find st.rdepend
              { dbid := d, classid := it.1, oid := it.2 } := by
          intro it hit
          rw [hstI0, hregR,
            register_rels_find_ne m d k oids stR _
              (fun o ho => hinv_keys it hit o ho), hstR_rd]
        have hcleanI : ∀ it ∈ items.filter pgsp_item_handled,
            rkeyClean k stI0.rdepend
              { dbid := d, classid := it.1, oid := it.2 } := by
          intro it hit
          exact rkeyClean_of_find_eq k stI0.rdepend st.rdepend _
            (hstI0_find it hit) (hclean0 _)
        have hnodupI : ((items.filter pgsp_item_handled).map
            (fun it => ({ dbid := d, classid := it.1, oid := it.2 } :
              pgspRdependKey))).Nodup := by
          simpa [rkInval] using hnodup
        have hunwI : pgsp_unwind_invals d k items regI.2.1.length regI.2.2 =
            stI0 := by
          rw [hregI]
          exact register_invals_unwind m d k items stI0 hnodupI hcleanI
        have hunwR :
            freeDsmem plen (pgsp_unwind_rels d k oids oids.length stI0) =
              st := by
          by_cases ho : oids = []
          · rw [pgsp_unwind_rels, if_neg (by simp [ho])]
            rw [hstI0, hregR, ho]
            show freeDsmem plen (pgsp_register_rels m d k [] stR).2.2 = st
            rw [show (pgsp_register_rels m d k ([] : List Nat) stR).2.2 =
              stR from rfl]
            rw [hstR, if_neg (fun hcon => hcon ho)]
            exact freeDsmem_useDsmem plen st
          · rw [pgsp_unwind_rels, if_pos (List.length_pos.mpr ho)]
            have hcount2 : (pgsp_register_rels m d k oids stR).2.1 =
                oids.length := by
              rw [← hregR]
              exact hcount
            have hrt := register_rels_unwind m d k oids stR hnodupO
              (fun o _ => hcleanR _)
            rw [hcount2, List.take_length] at hrt
            rw [List.take_length, hstI0, hregR, hrt]
            rw [hstR, if_pos ho]
            rw [freeDsmem_useDsmem, freeDsmem_useDsmem]
        by_cases hD : regI.1 = true
        · rw [if_neg (not_not_intro hD)] at hfail ⊢
          by_cases hE : 0 < regI.2.1.length ∧ ¬ oracle.rdepsOk = true
          · rw [if_pos hE]
            rw [hunwI]
            exact hunwR
          · rw [if_neg hE] at hfail
            simp at hfail
        · rw [if_pos hD]
          rw [hunwI]
          exact hunwR
      · rw [if_pos hC]
        dsimp only
        have hoid_ne : oids ≠ [] := by
          intro h0
          apply hC
          rw [hregR, h0]
          rfl
        rw [pgsp_unwind_rels, if_pos (List.length_pos.mpr hoid_ne)]
        rw [hregR]
        rw [register_rels_unwind m d k oids stR hnodupO
          (fun o _ => hcleanR _)]
        rw [hstR, if_pos hoid_ne]
        rw [freeDsmem_useDsmem, freeDsmem_useDsmem]
  · rw [if_pos hp]

/-- C4 (code bug): on every failure of pgsp_allocate_plan the completed
registrations are unregistered and the arena allocations freed, so the
returned state is exactly the pre-insertion state and pgsp_cache_plan
caches nothing; but the claim's "no user-visible error is raised" fails
on one of its enumerated cases: when the relation-array allocation
returns the OOM sentinel, the code jumps to free_plan without having
acquired the store lock, and the epilogue's unconditional LWLockRelease
then operates on an unheld lock and raises an error that aborts the
query. -/
theorem C4_allocate_plan_unwind (pgsp_max m : Nat)
    (oracle : pgspAllocOracle) (d : Nat) (k : pgspHashKey)
    (pid plen : Nat) (raw : List Nat) (items : List (Nat × Nat))
    (plantime : ℚ) (num_const : Nat) (cc gc : ℚ) (st : pgspState)
    (hfresh : keyFresh k st.rdepend)
    (hne : rdependNonempty st.rdepend)
    (hnodup : ((items.filter pgsp_item_handled).map
      (fun it => rkInval d it)).Nodup) :
    ((pgsp_allocate_plan m oracle d k pid plen raw items st).ok = false →
      (pgsp_allocate_plan m oracle d k pid plen raw items st).state = st ∧
      pgsp_cache_plan pgsp_max m oracle d k pid plen raw items plantime
        num_const cc gc st = st) ∧
    (oracle.planOk = true → oracle.relsOk = false →
      raw.foldl list_append_unique_oid [] ≠ [] →
      (pgsp_allocate_plan m oracle d k pid plen raw items st).ok = false ∧
      (pgsp_allocate_plan m oracle d k pid plen raw items st).elog_error =
        true) := by
  constructor
  · intro hfail
    have h := pgsp_allocate_plan_fail_restore m oracle d k pid plen raw
      items st hfresh hne hnodup hfail
    refine ⟨h, ?_⟩
    simp only [pgsp_cache_plan]
    rw [if_neg (by rw [hfail]; simp)]
    exact h
  · intro hp hrels hoids
    simp only [pgsp_allocate_plan]
    rw [if_neg (not_not_intro hp),
      if_pos (And.intro hoids (by rw [hrels]; simp))]
    exact ⟨rfl, rfl⟩

/-- Witness: with the relation-array allocation failing for a plan that
references two relations, pgsp_allocate_plan reports failure, hands back
the empty state unchanged and pgsp_cache_plan caches nothing — yet its
epilogue releases the store lock it never acquired, raising an error. -/
theorem C4_allocate_plan_unwind_witness :
    ((pgsp_allocate_plan 10
      { planOk := true, relsOk := false, rdepsOk := true }
      1 kW 5 100 [2, 3] [(75, 1)] stEmpty).ok = false ∧
     (pgsp_allocate_plan 10
      { planOk := true, relsOk := false, rdepsOk := true }
      1 kW 5 100 [2, 3] [(75, 1)] stEmpty).state = stEmpty ∧
     pgsp_cache_plan 100 10
      { planOk := true, relsOk := false, rdepsOk := true }
      1 kW 5 100 [2, 3] [(75, 1)] 10 0 5 5 stEmpty = stEmpty) ∧
    (pgsp_allocate_plan 10
      { planOk := true, relsOk := false, rdepsOk := true }
      1 kW 5 100 [2, 3] [(75, 1)] stEmpty).elog_error = true :=
  ⟨⟨rfl,
    ((C4_allocate_plan_unwind 100 10
      { planOk := true, relsOk := false, rdepsOk := true }
      1 kW 5 100 [2, 3] [(75, 1)] 10 0 5 5 stEmpty
      (by simp [keyFresh, stEmpty])
      (by simp [rdependNonempty, stEmpty])
      (by decide)).1 rfl).1,
    ((C4_allocate_plan_unwind 100 10
      { planOk := true, relsOk := false, rdepsOk := true }
      1 kW 5 100 [2, 3] [(75, 1)] 10 0 5 5 stEmpty
      (by simp [keyFresh, stEmpty])
      (by simp [rdependNonempty, stEmpty])
      (by decide)).1 rfl).2⟩,
   ((C4_allocate_plan_unwind 100 10
      { planOk := true, relsOk := false, rdepsOk := true }
      1 kW 5 100 [2, 3] [(75, 1)] 10 0 5 5 stEmpty
      (by simp [keyFresh, stEmpty])
      (by simp [rdependNonempty, stEmpty])
      (by decide)).2 rfl rfl (by decide)).2⟩
